import Mathlib

/-!
Verification of the segflow engine against its specification.

The definitions below are a shallow embedding of the engine source:
relational tables become lists of row structures, and each service function
is translated statement by statement from the TypeScript source.  External
collaborators (the MySQL query evaluator, the QuickJS sandbox, the
SQL-to-AST library and the email transports) enter as explicit function
parameters, mirroring the interfaces the spec assigns to them.

User attribute documents are modeled as flat string-keyed records: the
engine itself never inspects nesting - it only deep-compares documents,
stores them, and reads the email field - so flat documents carry all the
structure the verified properties depend on.
-/

set_option autoImplicit false

/-- A primitive JSON value inside an attribute document. -/
inductive AttrVal where
  | null : AttrVal
  | bool (b : Bool) : AttrVal
  | num (n : Int) : AttrVal
  | str (s : String) : AttrVal
deriving DecidableEq

/-- A user attribute document.  Equality models the deep-equal comparison
used by the executor for its attribute writeback check. -/
abbrev Attributes := List (String × AttrVal)

/-- Execution status column, the typed union from the schema. -/
inductive ExecStatus where
  | pending | sleeping | running | completed | failed | terminated
deriving DecidableEq

/-- Campaign behavior column. -/
inductive Behavior where
  | static | dynamic
deriving DecidableEq

structure UserRow where
  id : String
  attributes : Attributes
deriving DecidableEq

structure SegmentRow where
  id : String
  evaluator : String
deriving DecidableEq

structure CampaignRow where
  id : String
  flow : String
  behavior : Behavior
deriving DecidableEq

structure ExecRow where
  userId : String
  campaignId : String
  status : ExecStatus
  sleepUntil : Int
  error : Option String
deriving DecidableEq

structure HistRow where
  userId : String
  campaignId : String
  stepIndex : Nat
  attributes : Attributes
deriving DecidableEq

structure TemplateRow where
  id : String
  subject : String
  html : String
  preamble : String
deriving DecidableEq

/-- One outbound email, as handed to the provider transport. -/
structure EmailMsg where
  recipient : String
  subject : String
  html : String
deriving DecidableEq

/-- The engine-owned tables.  Timestamps are integer milliseconds. -/
structure St where
  users : List UserRow
  segments : List SegmentRow
  segmentUsers : List (String × String)
  campaigns : List CampaignRow
  campaignSegments : List (String × String)
  campaignExcludeSegments : List (String × String)
  campaignUsers : List (String × String)
  executions : List ExecRow
  executionHistory : List HistRow
  templates : List TemplateRow
  sentEmails : List EmailMsg
deriving DecidableEq

/-- Predicate selecting the execution row of one (user, campaign) pair. -/
def execKeyEq (userId campaignId : String) (r : ExecRow) : Bool :=
  r.userId == userId && r.campaignId == campaignId

/-- The row update performed by killExecution on the selected pair. -/
def killRowUpdate (userId campaignId error : String) (r : ExecRow) : ExecRow :=
  if execKeyEq userId campaignId r then
    { r with status := .terminated, error := some error }
  else r

/-- killExecution: select the execution row for the pair; if the row is
absent, return silently; otherwise set status terminated and the error
column to the given reason. -/
def killExecution (db : St) (userId campaignId : String)
    (error : String := "Campaign membership ended") : St :=
  match db.executions.find? (execKeyEq userId campaignId) with
  | none => db
  | some _ =>
    { db with
      executions := db.executions.map (killRowUpdate userId campaignId error) }

/-- The segment ids the user currently belongs to (the userSegmentIds set
computed at the top of evaluateUserCampaigns). -/
def userSegmentIdsOf (db : St) (userId : String) : List String :=
  (db.segmentUsers.filter (fun p => p.1 == userId)).map (fun p => p.2)

/-- Include-segment ids of a campaign (the campaignSegments rows). -/
def includeSegmentIdsOf (db : St) (campaignId : String) : List String :=
  (db.campaignSegments.filter (fun p => p.1 == campaignId)).map (fun p => p.2)

/-- Exclude-segment ids of a campaign (the campaignExcludeSegments rows). -/
def excludeSegmentIdsOf (db : St) (campaignId : String) : List String :=
  (db.campaignExcludeSegments.filter (fun p => p.1 == campaignId)).map
    (fun p => p.2)

/-- evaluateUserCampaign: the user must be in all include segments and in
no exclude segment.  Also the shouldBeInCampaign computation inside the
evaluateUserCampaigns loop, which reads the same unchanged tables. -/
def evaluateUserCampaign (db : St) (userId campaignId : String) : Bool :=
  let userSegmentIds := userSegmentIdsOf db userId
  let matchesInclude :=
    (includeSegmentIdsOf db campaignId).all fun s => userSegmentIds.contains s
  let matchesExclude :=
    (excludeSegmentIdsOf db campaignId).any fun s => userSegmentIds.contains s
  matchesInclude && !matchesExclude

/-- INSERT IGNORE of one (user, campaign) or (user, segment) pair. -/
def insertIgnorePair (tbl : List (String × String)) (p : String × String) :
    List (String × String) :=
  if p ∈ tbl then tbl else tbl ++ [p]

/-- DELETE of one pair by both key columns. -/
def removePair (tbl : List (String × String)) (p : String × String) :
    List (String × String) :=
  tbl.filter fun q => decide (q ≠ p)

/-- The needsUpdate test of the evaluateUserCampaigns loop: static
campaigns only add, dynamic campaigns add or remove. -/
def campaignNeedsUpdate (db : St) (userId : String) (snap : List String)
    (c : CampaignRow) : Bool :=
  if c.behavior = .static then
    evaluateUserCampaign db userId c.id && !(snap.contains c.id)
  else
    evaluateUserCampaign db userId c.id != snap.contains c.id

/-- One iteration of the evaluateUserCampaigns loop.  The accumulator is
the campaignUsers table together with the added and removed result lists;
snap is the currentCampaignIds snapshot taken before the loop. -/
def campaignStep (db : St) (userId : String) (snap : List String)
    (acc : List (String × String) × List String × List String)
    (c : CampaignRow) : List (String × String) × List String × List String :=
  if campaignNeedsUpdate db userId snap c then
    if evaluateUserCampaign db userId c.id then
      (insertIgnorePair acc.1 (userId, c.id), acc.2.1 ++ [c.id], acc.2.2)
    else if c.behavior ≠ .static then
      (removePair acc.1 (userId, c.id), acc.2.1, acc.2.2 ++ [c.id])
    else acc
  else acc

/-- The currentCampaignIds snapshot taken before the
evaluateUserCampaigns loop. -/
def currentCampaignIdsOf (db : St) (userId : String) : List String :=
  (db.campaignUsers.filter (fun p => p.1 == userId)).map (fun p => p.2)

/-- evaluateUserCampaigns: snapshot the current campaign memberships of
the user, then walk all campaigns adding or removing memberships per
behavior.  Returns the new state with the added and removed campaign
ids. -/
def evaluateUserCampaigns (db : St) (userId : String) :
    St × List String × List String :=
  let res := db.campaigns.foldl
    (campaignStep db userId (currentCampaignIdsOf db userId))
    (db.campaignUsers, [], [])
  ({ db with campaignUsers := res.1 }, res.2.1, res.2.2)

/-- Concrete store used to witness the campaign-membership theorem: one
static campaign with no include segments and one dynamic campaign whose
single include segment the user is not a member of, while a stale
membership row for the dynamic campaign exists. -/
def dbC1ex : St :=
  { users := [⟨"u", [("email", .str "u@x")]⟩]
    segments := [⟨"s1", "SELECT id FROM users"⟩]
    segmentUsers := []
    campaigns := [⟨"c1", "flow1", .static⟩, ⟨"c2", "flow2", .dynamic⟩]
    campaignSegments := [("c2", "s1")]
    campaignExcludeSegments := []
    campaignUsers := [("u", "c2")]
    executions := []
    executionHistory := []
    templates := []
    sentEmails := [] }

/-- The membership value of (user, c.id) after the loop body for campaign
c runs, given the membership value before it. -/
def campaignPostMember (db : St) (userId : String) (snap : List String)
    (c : CampaignRow) (before : Prop) : Prop :=
  if campaignNeedsUpdate db userId snap c then
    if evaluateUserCampaign db userId c.id then True
    else if c.behavior ≠ .static then False
    else before
  else before

/-- A duration object passed to the wait runtime constructor; absent
components are the missing (undefined) fields. -/
structure Duration where
  seconds : Option Int := none
  minutes : Option Int := none
  hours : Option Int := none
  days : Option Int := none
  weeks : Option Int := none
deriving DecidableEq

/-- A tagged command built by the runtime object constructors sendEmail,
wait and sendSMS.  The wait argument may be absent (rt.wait called with a
falsy argument), which the executor rejects. -/
inductive RuntimeCommand where
  | sendEmail (templateId : String) : RuntimeCommand
  | wait (duration : Option Duration) : RuntimeCommand
  | sendSMS (message : String) : RuntimeCommand
deriving DecidableEq

/-- A JS value yielded by a flow generator: undefined, a primitive, or a
runtime command object. -/
inductive Yielded where
  | undef : Yielded
  | vnull : Yielded
  | vbool (b : Bool) : Yielded
  | vnum (n : Int) : Yielded
  | vstr (s : String) : Yielded
  | cmd (c : RuntimeCommand) : Yielded
deriving DecidableEq

/-- JS truthiness of a yielded value, as tested by the negations in the
executor (!result.value). -/
def truthy : Yielded → Bool
  | .undef => false
  | .vnull => false
  | .vbool b => b
  | .vnum n => decide (n ≠ 0)
  | .vstr s => decide (s ≠ "")
  | .cmd _ => true

/-- The record returned by one sandbox stepFlow call. -/
structure SandboxStepResult where
  value : Yielded
  done : Bool
  attributes : Attributes
deriving DecidableEq

/-- External collaborators of the executor, per the interfaces the spec
assigns to them: the user-scoped SQL segment evaluation, the sandbox step
operation, the sandbox subject-expression evaluation, the template
renderer, and the email transport outcome (none means accepted). -/
structure Env where
  segMatch : String → String → Bool
  step : String → List Attributes → Nat → Except String SandboxStepResult
  evalUserExpr : String → Attributes → Except String String
  renderTpl : String → String → Attributes → Except String String
  sendResult : EmailMsg → Option String

/-- The claimed execution row handed to processExecution. -/
structure ExecutionState where
  userId : String
  campaignId : String
  status : ExecStatus
  sleepUntil : Int
deriving DecidableEq

def findUser (db : St) (id : String) : Option UserRow :=
  db.users.find? fun r => r.id == id

def findCampaign (db : St) (id : String) : Option CampaignRow :=
  db.campaigns.find? fun c => c.id == id

def findTemplate (db : St) (id : String) : Option TemplateRow :=
  db.templates.find? fun t => t.id == id

/-- Ordered insertion of a history row by step index. -/
def histSortInsert (x : HistRow) : List HistRow → List HistRow
  | [] => [x]
  | y :: ys =>
    if x.stepIndex ≤ y.stepIndex then x :: y :: ys else y :: histSortInsert x ys

/-- Sort history rows ascending by step index (the ORDER BY clause). -/
def histSort : List HistRow → List HistRow
  | [] => []
  | x :: xs => histSortInsert x (histSort xs)

/-- The execution-history rows of one pair ordered by step index. -/
def historyFor (db : St) (u c : String) : List HistRow :=
  histSort (db.executionHistory.filter
    (fun h => h.userId == u && h.campaignId == c))

/-- Result of setupExecutionState. -/
structure SetupResult where
  campaign : CampaignRow
  user : UserRow
  stepIndex : Nat
  attributeStates : List Attributes
deriving DecidableEq

/-- setupExecutionState: load campaign and user, then derive the step
index and attribute-state list from the claimed status - a pending row
starts at step 0 seeing only the current attributes, a sleeping row
replays its history followed by the current attributes. -/
def setupExecutionState (db : St) (state : ExecutionState) :
    Except String SetupResult :=
  match findCampaign db state.campaignId with
  | none => .error "Campaign not found"
  | some campaign =>
    match findUser db state.userId with
    | none => .error "User not found"
    | some user =>
      match state.status with
      | .pending => .ok ⟨campaign, user, 0, [user.attributes]⟩
      | .sleeping =>
        let history := historyFor db state.userId state.campaignId
        if history.isEmpty then
          .error "No execution history found for sleeping state"
        else
          .ok ⟨campaign, user, history.length,
            history.map (fun h => h.attributes) ++ [user.attributes]⟩
      | _ => .error "Unknown execution state"

/-- Append one execution-history row; the table primary key
(user, campaign, stepIndex) makes a duplicate insert a database error. -/
def insertExecutionHistory (db : St) (u c : String) (i : Nat)
    (attrs : Attributes) : Except String St :=
  if db.executionHistory.any
      (fun h => h.userId == u && h.campaignId == c && h.stepIndex == i) then
    .error "duplicate execution history row"
  else
    .ok { db with executionHistory := db.executionHistory ++ [⟨u, c, i, attrs⟩] }

/-- One iteration of the evaluateUserSegments loop: flip the membership
row when the user-scoped evaluation disagrees with the snapshot. -/
def segmentFlipStep (env : Env) (userId : String) (snap : List String)
    (acc : List (String × String) × List String × List String)
    (s : SegmentRow) : List (String × String) × List String × List String :=
  let isMatch := env.segMatch s.evaluator userId
  let wasMatch := snap.contains s.id
  if isMatch != wasMatch then
    if isMatch then
      (insertIgnorePair acc.1 (userId, s.id), acc.2.1 ++ [s.id], acc.2.2)
    else
      (removePair acc.1 (userId, s.id), acc.2.1, acc.2.2 ++ [s.id])
  else acc

/-- evaluateUserSegments: walk all segments, flipping membership rows
against the snapshot of the current memberships. -/
def evaluateUserSegments (env : Env) (db : St) (userId : String) :
    St × List String × List String :=
  let res := db.segments.foldl
    (segmentFlipStep env userId (userSegmentIdsOf db userId))
    (db.segmentUsers, [], [])
  ({ db with segmentUsers := res.1 }, res.2.1, res.2.2)

/-- createExecution: check the campaign exists, then insert a pending
execution row with sleepUntil now; the (user, campaign) primary key makes
a duplicate insert a database error. -/
def createExecution (db : St) (now : Int) (userId campaignId : String) :
    Except String St :=
  match findCampaign db campaignId with
  | none => .error "Campaign not found"
  | some _ =>
    if db.executions.any (execKeyEq userId campaignId) then
      .error "duplicate execution row"
    else
      .ok { db with executions :=
        db.executions ++ [⟨userId, campaignId, .pending, now, none⟩] }

/-- Create executions for each newly added campaign membership, stopping
at the first error as the enclosing transaction would. -/
def createExecutionsLoop (db : St) (now : Int) (userId : String) :
    List String → St × Option String
  | [] => (db, none)
  | cid :: rest =>
    match createExecution db now userId cid with
    | .error e => (db, some e)
    | .ok db1 => createExecutionsLoop db1 now userId rest

/-- Kill the executions of the removed campaigns whose behavior is
dynamic. -/
def killRemovedDynamic (db : St) (userId reason : String)
    (removed : List String) : St :=
  (db.campaigns.filter
    (fun c => removed.contains c.id && c.behavior == Behavior.dynamic)).foldl
    (fun d c => killExecution d userId c.id reason) db

/-- The tail of reevaluateUserMemberships: propagate a creation error or
kill the executions of removed dynamic campaigns. -/
def reevalFinish (db3 : St) (err : Option String) (userId reason : String)
    (removed : List String) : St × Option String :=
  match err with
  | some e => (db3, some e)
  | none => (killRemovedDynamic db3 userId reason removed, none)

/-- reevaluateUserMembershipsAfterAttributeChange without an event scope:
reevaluate segments, then campaigns, create executions for additions and
kill executions of removed dynamic campaigns. -/
def reevaluateUserMemberships (env : Env) (db : St) (now : Int)
    (userId reason : String) : St × Option String :=
  let r1 := evaluateUserSegments env db userId
  let r2 := evaluateUserCampaigns r1.1 userId
  let r3 := createExecutionsLoop r2.1 now userId r2.2.1
  reevalFinish r3.1 r3.2 userId reason r2.2.2

/-- Read the email attribute used as the recipient address. -/
def attrsEmail (a : Attributes) : String :=
  match a.find? (fun p => p.1 == "email") with
  | some (_, .str s) => s
  | _ => ""

/-- Record one accepted outbound email. -/
def sendEmailTransport (db : St) (recipient subject html : String) : St :=
  { db with sentEmails := db.sentEmails ++ [⟨recipient, subject, html⟩] }

/-- sendTemplateEmail: look up the template, evaluate the subject
expression and render the html against the user attributes, then hand the
message to the transport. -/
def sendTemplateEmail (env : Env) (db : St) (templateId : String)
    (user : Attributes) : St × Option String :=
  let recipient := attrsEmail user
  match findTemplate db templateId with
  | none => (db, some ("template not found: " ++ templateId))
  | some tpl =>
    match env.evalUserExpr tpl.subject user with
    | .error e => (db, some e)
    | .ok subj =>
      match env.renderTpl tpl.html tpl.preamble user with
      | .error e => (db, some e)
      | .ok html =>
        match env.sendResult ⟨recipient, subj, html⟩ with
        | some e => (db, some e)
        | none => (sendEmailTransport db recipient subj html, none)

/-- Add one wait-duration component: a present and truthy (nonzero)
component adds its value times the unit in milliseconds. -/
def waitAddComponent (t : Int) (comp : Option Int) (unitMs : Int) : Int :=
  match comp with
  | some v => if v ≠ 0 then t + v * unitMs else t
  | none => t

/-- The incremental wait arithmetic: starting from now, the seconds,
minutes, hours, days and weeks-times-seven-days components are added in
turn. -/
def applyWaitDuration (now : Int) (d : Duration) : Int :=
  waitAddComponent (waitAddComponent (waitAddComponent (waitAddComponent
    (waitAddComponent now d.seconds 1000) d.minutes 60000) d.hours 3600000)
    d.days 86400000) d.weeks (7 * 86400000)

/-- Set the execution row of the pair to sleeping until the given time. -/
def setExecutionSleeping (db : St) (u c : String) (ts : Int) : St :=
  { db with executions := db.executions.map fun r =>
      if execKeyEq u c r then { r with status := .sleeping, sleepUntil := ts }
      else r }

/-- Set the execution row of the pair to failed with the error message. -/
def setExecutionFailed (db : St) (u c msg : String) : St :=
  { db with executions := db.executions.map fun r =>
      if execKeyEq u c r then { r with status := .failed, error := some msg }
      else r }

/-- Set the execution row of the pair to completed. -/
def setExecutionCompleted (db : St) (u c : String) : St :=
  { db with executions := db.executions.map fun r =>
      if execKeyEq u c r then { r with status := .completed } else r }

/-- handleExecutionCommand: WAIT computes the sleep time incrementally and
puts the row to sleep; SEND_EMAIL renders and sends then puts the row to
sleep until now; SEND_SMS is rejected. -/
def handleExecutionCommand (env : Env) (now : Int) (db : St)
    (userId campaignId : String) (command : RuntimeCommand)
    (user : UserRow) : St × Option String :=
  match command with
  | .wait dur =>
    match dur with
    | none => (db, some "Wait command missing duration")
    | some d =>
      (setExecutionSleeping db userId campaignId (applyWaitDuration now d),
        none)
  | .sendEmail templateId =>
    let r := sendTemplateEmail env db templateId user.attributes
    match r.2 with
    | some e => (r.1, some e)
    | none => (setExecutionSleeping r.1 userId campaignId now, none)
  | .sendSMS _ => (db, some "SMS sending not implemented")

/-- A truthy non-command value reaches the command switch and hits its
default branch, whose message interpolates the undefined type tag. -/
def handleYieldedCommand (env : Env) (now : Int) (db : St)
    (userId campaignId : String) (v : Yielded) (user : UserRow) :
    St × Option String :=
  match v with
  | .cmd c => handleExecutionCommand env now db userId campaignId c user
  | _ => (db, some "Unknown command type: undefined")

/-- The dynamic-exit precheck at the top of processExecution. -/
def dynamicPrecheckFails (db : St) (userId : String) (setup : SetupResult) :
    Bool :=
  setup.campaign.behavior == Behavior.dynamic && setup.stepIndex != 0 &&
    !(evaluateUserCampaign db userId setup.campaign.id)

/-- The second dynamic-exit check before command execution. -/
def dynamicRecheckFails (db : St) (userId : String) (setup : SetupResult) :
    Bool :=
  setup.campaign.behavior == Behavior.dynamic &&
    !(evaluateUserCampaign db userId setup.campaign.id)

/-- Replace the stored attributes of one user row. -/
def updateUserAttrs (db : St) (userId : String) (attrs : Attributes) : St :=
  { db with users := db.users.map fun r =>
      if r.id == userId then { r with attributes := attrs } else r }

/-- The attribute-writeback stage: when the attributes returned by the
sandbox differ (deep-equal) from the stored ones, persist them and
reevaluate memberships. -/
def writebackStage (env : Env) (now : Int) (db1 : St) (userId : String)
    (user : UserRow) (res : SandboxStepResult) : St × Option String :=
  if res.attributes = user.attributes then (db1, none)
  else
    reevaluateUserMemberships env (updateUserAttrs db1 userId res.attributes)
      now userId
      "user attributes changed and no longer matches campaign criteria"

/-- processExecution: the per-row work of one tick.  Any error surfacing
inside the body marks the row failed with the error message and reports
false; otherwise the row advances and reports true. -/
def processExecution (env : Env) (now : Int) (db : St)
    (state : ExecutionState) : St × Bool :=
  match setupExecutionState db state with
  | .error e => (setExecutionFailed db state.userId state.campaignId e, false)
  | .ok setup =>
    if dynamicPrecheckFails db state.userId setup then
      (killExecution db state.userId setup.campaign.id
        "User no longer matches campaign criteria", true)
    else
      match insertExecutionHistory db state.userId state.campaignId
        setup.stepIndex setup.user.attributes with
      | .error e =>
        (setExecutionFailed db state.userId state.campaignId e, false)
      | .ok db1 =>
        match env.step setup.campaign.flow setup.attributeStates
          setup.stepIndex with
        | .error e =>
          (setExecutionFailed db1 state.userId state.campaignId e, false)
        | .ok result =>
          match writebackStage env now db1 state.userId setup.user result with
          | (db2, some e) =>
            (setExecutionFailed db2 state.userId state.campaignId e, false)
          | (db2, none) =>
            if result.done && !(truthy result.value) then
              (setExecutionCompleted db2 state.userId state.campaignId, true)
            else if !(truthy result.value) then
              (setExecutionFailed db2 state.userId state.campaignId
                "Generator yielded undefined", false)
            else if dynamicRecheckFails db2 state.userId setup then
              (killExecution db2 state.userId setup.campaign.id
                "User no longer matches campaign criteria", true)
            else
              match handleYieldedCommand env now db2 state.userId
                state.campaignId result.value setup.user with
              | (db3, some e) =>
                (setExecutionFailed db3 state.userId state.campaignId e, false)
              | (db3, none) => (db3, true)

/-- A small store with one execution row, used by witnesses. -/
def dbC9ex : St :=
  { users := [⟨"u", [("email", .str "u@x")]⟩]
    segments := []
    segmentUsers := []
    campaigns := [⟨"c", "flowC", .static⟩]
    campaignSegments := []
    campaignExcludeSegments := []
    campaignUsers := [("u", "c")]
    executions := [⟨"u", "c", .pending, 0, none⟩]
    executionHistory := []
    templates := []
    sentEmails := [] }

/-- Sandbox environment whose step yields undefined with done, used by
witnesses. -/
def envUndef : Env :=
  { segMatch := fun _ _ => false
    step := fun _ _ _ => .ok ⟨.undef, true, [("email", .str "u@x")]⟩
    evalUserExpr := fun _ _ => .ok ""
    renderTpl := fun _ _ _ => .ok ""
    sendResult := fun _ => none }

/-- Sandbox environment whose step yields the number zero, not done. -/
def envZero : Env :=
  { segMatch := fun _ _ => false
    step := fun _ _ _ => .ok ⟨.vnum 0, false, [("email", .str "u@x")]⟩
    evalUserExpr := fun _ _ => .ok ""
    renderTpl := fun _ _ _ => .ok ""
    sendResult := fun _ => none }

/-- The setup produced for the pending execution row of dbC9ex. -/
def setupC9 : SetupResult :=
  ⟨⟨"c", "flowC", .static⟩, ⟨"u", [("email", .str "u@x")]⟩, 0,
    [[("email", .str "u@x")]]⟩

/-- dbC9ex after its step-zero history row is recorded. -/
def dbC9hist : St :=
  { dbC9ex with executionHistory := [⟨"u", "c", 0, [("email", .str "u@x")]⟩] }

/-- The claimed pending execution row of dbC9ex. -/
def stateC9 : ExecutionState := ⟨"u", "c", .pending, 0⟩

/-- The observable outcome of one generator advance: the yielded (or
returned) value, the done flag, the value of ctx.attributes read out after
the advance, and the generator internal state. -/
structure GenOut (σ : Type) where
  value : Yielded
  done : Bool
  ctxAttrs : Option Attributes
  state : σ

/-- A flow generator as a transition system: an initial internal state and
a next operation taking the value bound to ctx.attributes immediately
before the advance (undefined when the index is out of range). -/
structure Gen (σ : Type) where
  init : σ
  next : σ → Option Attributes → GenOut σ

/-- The record returned by executeGeneratorToIndex. -/
structure FlowStepResult where
  value : Yielded
  done : Bool
  attributes : Option Attributes
deriving DecidableEq

/-- The loop of executeGeneratorToIndex: bind ctx.attributes to the
current attribute state, advance once, capture value, done and the read
back ctx.attributes, stop when done or when the target index is reached;
n counts the advances still to make after the current one. -/
def execGenLoop {σ : Type} (nextF : σ → Option Attributes → GenOut σ)
    (as : List Attributes) : σ → Nat → Nat → FlowStepResult
  | s, i, n =>
    let out := nextF s as[i]?
    if out.done then ⟨out.value, true, out.ctxAttrs⟩
    else
      match n with
      | 0 => ⟨out.value, false, out.ctxAttrs⟩
      | n1 + 1 => execGenLoop nextF as out.state (i + 1) n1

/-- executeGeneratorToIndex: drive the generator from its beginning for
targetIndex+1 advances (or until done). -/
def executeGeneratorToIndex {σ : Type} (g : Gen σ)
    (attributeStates : List Attributes) (targetIndex : Nat) : FlowStepResult :=
  execGenLoop g.next attributeStates g.init 0 targetIndex

/-- The i-th advance of the generator when driven from the beginning with
ctx.attributes rebound from the attribute states. -/
def genOutAt {σ : Type} (g : Gen σ) (as : List Attributes) : Nat → GenOut σ
  | 0 => g.next g.init as[0]?
  | i + 1 => g.next (genOutAt g as i).state as[i + 1]?

/-- The generator internal state entering the m-th advance. -/
def stateBeforeIdx {σ : Type} (g : Gen σ) (as : List Attributes) : Nat → σ
  | 0 => g.init
  | m + 1 => (genOutAt g as m).state

/-- A generator that never finishes and yields the one-based advance
count, used by witnesses. -/
def genCount : Gen Nat :=
  { init := 0
    next := fun s a => ⟨.vnum (Int.ofNat s + 1), false, a, s + 1⟩ }

/-- A generator whose body returns the value 7 immediately, as a flow
source reading return 7 would behave. -/
def genReturnSeven : Gen Unit :=
  { init := ()
    next := fun _ a => ⟨.vnum 7, true, a, ()⟩ }

/-- A template entry of a pushed configuration. -/
structure Template where
  subject : String
  html : String
  preamble : String
deriving DecidableEq

/-- A segment entry of a pushed configuration. -/
structure Segment where
  evaluator : String
deriving DecidableEq

/-- A campaign entry of a pushed configuration. -/
structure Campaign where
  flow : String
  behavior : Behavior
  segments : List String
  excludeSegments : Option (List String)
deriving DecidableEq

/-- A transaction entry of a pushed configuration. -/
structure Transaction where
  event : String
  subject : String
  html : String
  preamble : String
deriving DecidableEq

/-- The tagged provider configuration union. -/
inductive EmailProviderConfig where
  | postmark (apiKey : String) : EmailProviderConfig
  | ses (accessKeyId secretAccessKey region : String) : EmailProviderConfig
deriving DecidableEq

/-- The email provider entry of a pushed configuration. -/
structure EmailProvider where
  config : EmailProviderConfig
  fromAddress : String
deriving DecidableEq

/-- A whole pushed configuration.  The string-keyed records of the source
become association lists in key order. -/
structure Segflow where
  templates : List (String × Template)
  segments : List (String × Segment)
  campaigns : List (String × Campaign)
  transactions : List (String × Transaction)
  emailProvider : EmailProvider
deriving DecidableEq

/-- One add, update or delete operation of one entity category. -/
inductive ConfigOp (τ : Type) where
  | add (id : String) (data : τ) : ConfigOp τ
  | update (id : String) (data : τ) : ConfigOp τ
  | del (id : String) : ConfigOp τ

/-- The key set of a record, in insertion order. -/
def recKeys {τ : Type} (r : List (String × τ)) : List String :=
  (r.map (fun p => p.1)).dedup

/-- Property access on a record. -/
def recGet {τ : Type} (r : List (String × τ)) (id : String) : Option τ :=
  (r.find? (fun p => p.1 == id)).map (fun p => p.2)

/-- The keyed set diff shared by the per-category operation computations:
deletes for old keys missing from the new record, then per new key an add
when the key is new or an update when the payload differs. -/
def computeOperations {τ : Type} (differs : τ → τ → Bool)
    (old new : List (String × τ)) : List (ConfigOp τ) :=
  let oldIds := recKeys old
  let newIds := recKeys new
  (oldIds.filterMap fun id =>
    if newIds.contains id then none else some (.del id)) ++
  (newIds.filterMap fun id =>
    match recGet new id with
    | none => none
    | some d =>
      if oldIds.contains id then
        match recGet old id with
        | none => none
        | some od => if differs od d then some (.update id d) else none
      else some (.add id d))

def templateDiffers (a b : Template) : Bool :=
  a.subject != b.subject || a.html != b.html || a.preamble != b.preamble

def computeTemplateOperations (old new : List (String × Template)) :
    List (ConfigOp Template) :=
  computeOperations templateDiffers old new

def segmentDiffers (a b : Segment) : Bool :=
  a.evaluator != b.evaluator

def computeSegmentOperations (old new : List (String × Segment)) :
    List (ConfigOp Segment) :=
  computeOperations segmentDiffers old new

def transactionDiffers (a b : Transaction) : Bool :=
  a.event != b.event || a.subject != b.subject || a.html != b.html ||
    a.preamble != b.preamble

def computeTransactionOperations (old new : List (String × Transaction)) :
    List (ConfigOp Transaction) :=
  computeOperations transactionDiffers old new

/-- Ordered insertion for the JS default string sort. -/
def jsSortInsert (x : String) : List String → List String
  | [] => [x]
  | y :: ys => if x ≤ y then x :: y :: ys else y :: jsSortInsert x ys

/-- The JS default sort of a string array, used before comparing the
segment lists of two campaign payloads as sets. -/
def sortStrings : List String → List String
  | [] => []
  | x :: xs => jsSortInsert x (sortStrings xs)

def campaignDiffers (a b : Campaign) : Bool :=
  a.flow != b.flow || a.behavior != b.behavior ||
    sortStrings a.segments != sortStrings b.segments ||
    sortStrings (a.excludeSegments.getD []) !=
      sortStrings (b.excludeSegments.getD [])

def computeCampaignOperations (old new : List (String × Campaign)) :
    List (ConfigOp Campaign) :=
  computeOperations campaignDiffers old new

/-- The provider operation list: a single update when there was no
previous provider or the serialized payloads differ. -/
inductive ProviderOp where
  | update (data : EmailProvider) : ProviderOp

def computeEmailProviderOperations (old : Option EmailProvider)
    (new : EmailProvider) : List ProviderOp :=
  match old with
  | none => [.update new]
  | some o => if o ≠ new then [.update new] else []

/-- The per-category operation lists of one push. -/
structure ConfigDelta where
  templateOperations : List (ConfigOp Template)
  segmentOperations : List (ConfigOp Segment)
  campaignOperations : List (ConfigOp Campaign)
  transactionOperations : List (ConfigOp Transaction)
  emailProviderOperations : List ProviderOp

/-- The template record of the last configuration, empty when none. -/
def oldTemplates (lastConfig : Option Segflow) : List (String × Template) :=
  match lastConfig with | some c => c.templates | none => []

/-- The segment record of the last configuration, empty when none. -/
def oldSegments (lastConfig : Option Segflow) : List (String × Segment) :=
  match lastConfig with | some c => c.segments | none => []

/-- The campaign record of the last configuration, empty when none. -/
def oldCampaigns (lastConfig : Option Segflow) : List (String × Campaign) :=
  match lastConfig with | some c => c.campaigns | none => []

/-- The transaction record of the last configuration, empty when none. -/
def oldTransactions (lastConfig : Option Segflow) :
    List (String × Transaction) :=
  match lastConfig with | some c => c.transactions | none => []

/-- analyzeConfig with the last accepted configuration already loaded:
compute every category diff against it, an absent last configuration
counting as empty records. -/
def analyzeConfigPure (lastConfig : Option Segflow) (newConfig : Segflow) :
    ConfigDelta :=
  { templateOperations := computeTemplateOperations
      (oldTemplates lastConfig) newConfig.templates
    segmentOperations := computeSegmentOperations
      (oldSegments lastConfig) newConfig.segments
    campaignOperations := computeCampaignOperations
      (oldCampaigns lastConfig) newConfig.campaigns
    transactionOperations := computeTransactionOperations
      (oldTransactions lastConfig) newConfig.transactions
    emailProviderOperations := computeEmailProviderOperations
      (lastConfig.map (fun c => c.emailProvider)) newConfig.emailProvider }

/-- One service call made while applying a delta. -/
inductive ConfigAction where
  | createTemplate (id : String) (data : Template) : ConfigAction
  | updateTemplate (id : String) (data : Template) : ConfigAction
  | deleteTemplate (id : String) : ConfigAction
  | createTransaction (id : String) (data : Transaction) : ConfigAction
  | updateTransaction (id : String) (data : Transaction) : ConfigAction
  | deleteTransaction (id : String) : ConfigAction
  | createSegment (id : String) (data : Segment) : ConfigAction
  | updateSegment (id : String) (data : Segment) : ConfigAction
  | deleteSegment (id : String) : ConfigAction
  | createCampaign (id : String) (data : Campaign) : ConfigAction
  | deleteCampaign (id : String) : ConfigAction
  | setEmailProvider (data : EmailProvider) : ConfigAction
deriving DecidableEq

def templateOpAction : ConfigOp Template → ConfigAction
  | .add id d => .createTemplate id d
  | .update id d => .updateTemplate id d
  | .del id => .deleteTemplate id

def transactionOpAction : ConfigOp Transaction → ConfigAction
  | .add id d => .createTransaction id d
  | .update id d => .updateTransaction id d
  | .del id => .deleteTransaction id

def segmentOpAction : ConfigOp Segment → ConfigAction
  | .add id d => .createSegment id d
  | .update id d => .updateSegment id d
  | .del id => .deleteSegment id

/-- Walk the campaign operations in order, recording creates and deletes;
an update aborts the whole apply with an error, dropping the remaining
operations. -/
def runCampaignOps : List (ConfigOp Campaign) → List ConfigAction × Option String
  | [] => ([], none)
  | op :: rest =>
    match op with
    | .add id d =>
      let r := runCampaignOps rest
      (.createCampaign id d :: r.1, r.2)
    | .del id =>
      let r := runCampaignOps rest
      (.deleteCampaign id :: r.1, r.2)
    | .update id _ =>
      ([], some ("campaign updates are not supported: tried to update " ++ id))

/-- executeConfigDelta as the ordered trace of service calls it makes:
templates, then transactions, then segments, then campaigns, then the
email provider; a campaign update aborts after the earlier categories. -/
def executeConfigDelta (delta : ConfigDelta) :
    List ConfigAction × Option String :=
  let t := delta.templateOperations.map templateOpAction
  let tx := delta.transactionOperations.map transactionOpAction
  let s := delta.segmentOperations.map segmentOpAction
  let cr := runCampaignOps delta.campaignOperations
  match cr.2 with
  | some e => (t ++ tx ++ s ++ cr.1, some e)
  | none =>
    (t ++ tx ++ s ++ cr.1 ++
      delta.emailProviderOperations.map
        (fun op => match op with | .update d => ConfigAction.setEmailProvider d),
      none)

/-- One row of the append-only Config ledger. -/
structure ConfigRow where
  id : Nat
  configJson : Segflow
deriving DecidableEq

/-- The Config ledger, newest row first, with the autoincrement counter. -/
structure ConfigState where
  configs : List ConfigRow
  nextConfigId : Nat
deriving DecidableEq

/-- The latest accepted configuration by created_at. -/
def lastAcceptedConfig (cs : ConfigState) : Option Segflow :=
  cs.configs.head?.map (fun r => r.configJson)

def analyzeConfig (cs : ConfigState) (newConfig : Segflow) : ConfigDelta :=
  analyzeConfigPure (lastAcceptedConfig cs) newConfig

def deltaIsEmpty (d : ConfigDelta) : Bool :=
  d.templateOperations.isEmpty && d.segmentOperations.isEmpty &&
    d.campaignOperations.isEmpty && d.transactionOperations.isEmpty &&
    d.emailProviderOperations.isEmpty

/-- createConfig: analyze the new configuration against the last accepted
one; with no operations report no changes and write nothing; otherwise
apply the delta and append a new Config row, returning its id (the falsy
id zero is rejected as in the source). -/
def createConfig (cs : ConfigState) (config : Segflow) :
    Except String (ConfigState × Option Nat × List ConfigAction) :=
  let delta := analyzeConfig cs config
  if deltaIsEmpty delta then .ok (cs, none, [])
  else
    let r := executeConfigDelta delta
    match r.2 with
    | some e => .error e
    | none =>
      if cs.nextConfigId = 0 then .error "new config id not found"
      else
        .ok ({ configs := ⟨cs.nextConfigId, config⟩ :: cs.configs,
               nextConfigId := cs.nextConfigId + 1 },
             some cs.nextConfigId, r.1)

/-- A small configuration used by the push witnesses. -/
def cfgC5 : Segflow :=
  { templates := [("welcome", ⟨"subj", "<p>Hi</p>", "pre"⟩)]
    segments := [("all", ⟨"SELECT id FROM users"⟩)]
    campaigns := [("c", ⟨"flowC", .static, ["all"], none⟩)]
    transactions := []
    emailProvider := ⟨.postmark "key", "hello@x"⟩ }

/-- An empty ledger with the autoincrement counter at one. -/
def csC5empty : ConfigState := { configs := [], nextConfigId := 1 }

/-- The ledger after cfgC5 was accepted as row one. -/
def csC5 : ConfigState := { configs := [⟨1, cfgC5⟩], nextConfigId := 2 }

/-- The service calls of the first cfgC5 push from an empty ledger. -/
def actsC5 : List ConfigAction :=
  [.createTemplate "welcome" ⟨"subj", "<p>Hi</p>", "pre"⟩,
   .createSegment "all" ⟨"SELECT id FROM users"⟩,
   .createCampaign "c" ⟨"flowC", .static, ["all"], none⟩,
   .setEmailProvider ⟨.postmark "key", "hello@x"⟩]

/-- The order in which executeConfigDelta actually applies service calls:
per category deletes first, then adds and updates interleaved, categories
in the fixed order templates, transactions, segments, campaigns,
provider. -/
def actionRank : ConfigAction → Nat
  | .deleteTemplate _ => 0
  | .createTemplate _ _ => 1
  | .updateTemplate _ _ => 1
  | .deleteTransaction _ => 2
  | .createTransaction _ _ => 3
  | .updateTransaction _ _ => 3
  | .deleteSegment _ => 4
  | .createSegment _ _ => 5
  | .updateSegment _ _ => 5
  | .deleteCampaign _ => 6
  | .createCampaign _ _ => 7
  | .setEmailProvider _ => 8

/-- The order claim C6 asserts: within each category all deletes, then all
adds, then all updates. -/
def claimOpRank : ConfigAction → Nat
  | .deleteTemplate _ => 0
  | .createTemplate _ _ => 1
  | .updateTemplate _ _ => 2
  | .deleteTransaction _ => 3
  | .createTransaction _ _ => 4
  | .updateTransaction _ _ => 5
  | .deleteSegment _ => 6
  | .createSegment _ _ => 7
  | .updateSegment _ _ => 8
  | .deleteCampaign _ => 9
  | .createCampaign _ _ => 10
  | .setEmailProvider _ => 11

/-- The rank of a campaign operation in the applied order; updates never
produce an action (they abort), so their rank value is immaterial. -/
def campOpRank : ConfigOp Campaign → Nat
  | .del _ => 6
  | .add _ _ => 7
  | .update _ _ => 7

/-- Applied-order comparison of two service calls. -/
def rankLe (a b : ConfigAction) : Prop := actionRank a ≤ actionRank b

/-- Last accepted configuration of the order counterexample: one template
with key a. -/
def cfgC6old : Segflow :=
  { templates := [("a", ⟨"s1", "h", "p"⟩)]
    segments := []
    campaigns := []
    transactions := []
    emailProvider := ⟨.postmark "k", "f@x"⟩ }

/-- New configuration of the order counterexample: key a changed and key b
added, so the delta holds an update before an add. -/
def cfgC6new : Segflow :=
  { templates := [("a", ⟨"s2", "h", "p"⟩), ("b", ⟨"s", "h", "p"⟩)]
    segments := []
    campaigns := []
    transactions := []
    emailProvider := ⟨.postmark "k", "f@x"⟩ }

/-- One pass of the backtick-stripping regex replace: a backtick followed
by one or more non-backtick characters and a closing backtick is replaced
by the enclosed characters; unmatched backticks stay.  The fuel starts at
the character count, which bounds the number of replace steps. -/
def stripBtAux (fuel : Nat) (cs : List Char) : List Char :=
  match fuel with
  | 0 => cs
  | fuel1 + 1 =>
    match cs with
    | [] => []
    | c :: rest =>
      if c = Char.ofNat 96 then
        let mid := rest.takeWhile (fun x => x ≠ Char.ofNat 96)
        let rem := rest.drop mid.length
        match rem with
        | c2 :: rest2 =>
          if mid.isEmpty then c :: stripBtAux fuel1 rest
          else mid ++ stripBtAux fuel1 rest2
        | _ => c :: rest
      else c :: stripBtAux fuel1 rest

/-- Strip backtick quoting before parsing. -/
def stripBackticks (s : String) : String :=
  ⟨stripBtAux s.length s.data⟩

mutual
/-- The SQL AST shape the trigger extraction inspects: binary expressions,
column references with an optional table, typed string literals,
expression lists (the value array of an IN), and any other node with its
object-valued children. -/
inductive SqlAst where
  | binaryExpr (op : String) (left right : SqlAst) : SqlAst
  | columnRef (table : Option String) (column : String) : SqlAst
  | strLit (litType : String) (value : String) : SqlAst
  | exprList (value : SqlAstList) : SqlAst
  | other (children : SqlAstList) : SqlAst
inductive SqlAstList where
  | nil : SqlAstList
  | cons (head : SqlAst) (tail : SqlAstList) : SqlAstList
end

/-- ASCII lowercase of one character, the relevant fragment of the JS
toLowerCase applied to SQL operator tokens (which are ASCII). -/
def charToLower : Char → Char
  | 'A' => 'a' | 'B' => 'b' | 'C' => 'c' | 'D' => 'd' | 'E' => 'e'
  | 'F' => 'f' | 'G' => 'g' | 'H' => 'h' | 'I' => 'i' | 'J' => 'j'
  | 'K' => 'k' | 'L' => 'l' | 'M' => 'm' | 'N' => 'n' | 'O' => 'o'
  | 'P' => 'p' | 'Q' => 'q' | 'R' => 'r' | 'S' => 's' | 'T' => 't'
  | 'U' => 'u' | 'V' => 'v' | 'W' => 'w' | 'X' => 'x' | 'Y' => 'y'
  | 'Z' => 'z' | c => c

/-- ASCII lowercase of an operator token. -/
def asciiLower (s : String) : String :=
  ⟨s.data.map charToLower⟩

/-- The column_ref test for events.name. -/
def isEventsNameCol : SqlAst → Bool
  | .columnRef (some "events") "name" => true
  | _ => false

/-- The literal node types the extraction accepts. -/
def isStringLitType (t : String) : Bool :=
  t == "single_quote_string" || t == "string"

/-- The value of an accepted string literal node. -/
def litValue? : SqlAst → Option String
  | .strLit t w => if isStringLitType t then some w else none
  | _ => none

/-- The accepted literal values of an IN list, in order. -/
def inListValues : SqlAstList → List String
  | .nil => []
  | .cons h rest =>
    match litValue? h with
    | some w => w :: inListValues rest
    | none => inListValues rest

/-- The IN-branch contribution of one binary expression node. -/
def inTriggerList (op : String) (l r : SqlAst) : List String :=
  if asciiLower op == "in" && isEventsNameCol l then
    match r with
    | .exprList vs => inListValues vs
    | _ => []
  else []

/-- The two equality checks of one binary expression node: left column
with right literal, then right column with left literal. -/
def eqTriggerPart (l r : SqlAst) : List String :=
  (match litValue? r with
   | some w => if isEventsNameCol l then [w] else []
   | none => []) ++
  (match litValue? l with
   | some w => if isEventsNameCol r then [w] else []
   | none => [])

/-- The equality-branch contribution of one binary expression node. -/
def eqTriggerList (op : String) (l r : SqlAst) : List String :=
  if op == "=" || op == "==" then eqTriggerPart l r else []

mutual
/-- traverseAST: each node contributes its IN and equality matches, then
the traversal recurses into every child node. -/
def collectNode : SqlAst → List String
  | .binaryExpr op l r =>
    inTriggerList op l r ++ eqTriggerList op l r ++
      collectNode l ++ collectNode r
  | .columnRef _ _ => []
  | .strLit _ _ => []
  | .exprList vs => collectList vs
  | .other cs => collectList cs
def collectList : SqlAstList → List String
  | .nil => []
  | .cons h t => collectNode h ++ collectList t
end

/-- extractEventTriggersFromSQL: strip backticks, parse (the parser is the
external node-sql-parser library, passed as a function; its astify throws
on invalid SQL, which the source does not catch), then collect the
matching literals as a set in first-insertion order. -/
def extractEventTriggersFromSQL (parse : String → Except String SqlAst)
    (sql : String) : Except String (List String) :=
  match parse (stripBackticks sql) with
  | .error e => .error e
  | .ok ast => .ok (collectNode ast).dedup

/-- Whether an IN list holds an accepted literal with the given value. -/
def listHasLitValue : SqlAstList → String → Bool
  | .nil, _ => false
  | .cons h rest, v =>
    (litValue? h == some v) || listHasLitValue rest v

/-- The specification notion of one node being a matching comparison for
the value v: events.name = v, v = events.name, or events.name IN with v
among the list literals. -/
def nodeIsTrigger (n : SqlAst) (v : String) : Bool :=
  match n with
  | .binaryExpr op l r =>
    (asciiLower op == "in" && isEventsNameCol l &&
      (match r with
       | .exprList vs => listHasLitValue vs v
       | _ => false)) ||
    ((op == "=" || op == "==") &&
      ((isEventsNameCol l && (litValue? r == some v)) ||
       (isEventsNameCol r && (litValue? l == some v))))
  | _ => false

/-- Membership of a node in a node list. -/
inductive MemAst : SqlAst → SqlAstList → Prop where
  | head (a : SqlAst) (t : SqlAstList) : MemAst a (.cons a t)
  | tail (a b : SqlAst) (t : SqlAstList) : MemAst a t → MemAst a (.cons b t)

/-- The subterm relation of the AST: a node occurs somewhere inside
another, following binary operands, expression-list elements and the
children of other nodes. -/
inductive Subterm : SqlAst → SqlAst → Prop where
  | refl (a : SqlAst) : Subterm a a
  | binaryLeft {x l r : SqlAst} {op : String} :
      Subterm x l → Subterm x (.binaryExpr op l r)
  | binaryRight {x l r : SqlAst} {op : String} :
      Subterm x r → Subterm x (.binaryExpr op l r)
  | viaExprList {x y : SqlAst} {vs : SqlAstList} :
      MemAst y vs → Subterm x y → Subterm x (.exprList vs)
  | viaOther {x y : SqlAst} {cs : SqlAstList} :
      MemAst y cs → Subterm x y → Subterm x (.other cs)

/-- The AST of events.name = (literal) purchase, used by witnesses. -/
def astC8 : SqlAst :=
  .binaryExpr "=" (.columnRef (some "events") "name")
    (.strLit "single_quote_string" "purchase")

theorem execKeyEq_iff (u c : String) (r : ExecRow) :
    execKeyEq u c r = true ↔ r.userId = u ∧ r.campaignId = c := by
  simp [execKeyEq]

theorem killRowUpdate_key (u c e : String) (r : ExecRow) :
    execKeyEq u c (killRowUpdate u c e r) = execKeyEq u c r := by
  unfold killRowUpdate
  by_cases h : execKeyEq u c r
  · rw [if_pos h]
    obtain ⟨hu, hc⟩ := (execKeyEq_iff u c r).mp h
    rw [h]
    exact (execKeyEq_iff u c _).mpr ⟨hu, hc⟩
  · rw [if_neg h]

theorem killRowUpdate_idem (u c e : String) (r : ExecRow) :
    killRowUpdate u c e (killRowUpdate u c e r) = killRowUpdate u c e r := by
  by_cases h : execKeyEq u c r
  · have h2 : execKeyEq u c (killRowUpdate u c e r) = true := by
      rw [killRowUpdate_key]; exact h
    simp [killRowUpdate, h, h2]
  · simp [killRowUpdate, h]

theorem killExecution_map_self (db : St) (u c reason : String) :
    (killExecution db u c reason).executions =
      db.executions.map (killRowUpdate u c reason) := by
  unfold killExecution
  cases h : db.executions.find? (execKeyEq u c) with
  | none =>
    have hall := List.find?_eq_none.mp h
    show db.executions = _
    calc db.executions = db.executions.map id := (List.map_id _).symm
      _ = _ := List.map_congr_left (fun r hr => by
          have hx : ¬ execKeyEq u c r := hall r hr
          simp [killRowUpdate, hx])
  | some r => rfl

/-- Claim C9: killExecution succeeds and is a no-op when the row for
(user, campaign) is absent; when present it sets that row to status
terminated with the given reason in the error column; and running it twice
with the same arguments equals running it once. -/
theorem killExecution_idempotent_spec (db : St) (u c reason : String) :
    (db.executions.find? (execKeyEq u c) = none →
      killExecution db u c reason = db) ∧
    (∀ r ∈ (killExecution db u c reason).executions,
      r.userId = u → r.campaignId = c →
        r.status = .terminated ∧ r.error = some reason) ∧
    killExecution (killExecution db u c reason) u c reason =
      killExecution db u c reason := by
  refine ⟨fun h => ?_, fun r hr hu hc => ?_, ?_⟩
  · unfold killExecution
    rw [h]
  · rw [killExecution_map_self] at hr
    rcases List.mem_map.mp hr with ⟨r0, _, hr0⟩
    by_cases hk : execKeyEq u c r0
    · rw [killRowUpdate, if_pos hk] at hr0
      subst hr0; exact ⟨rfl, rfl⟩
    · rw [killRowUpdate, if_neg hk] at hr0
      rw [← hr0] at hu hc
      exact absurd ((execKeyEq_iff u c r0).mpr ⟨hu, hc⟩) hk
  · cases h1 : db.executions.find? (execKeyEq u c) with
    | none =>
      have hid : killExecution db u c reason = db := by
        unfold killExecution; rw [h1]
      rw [hid, hid]
    | some r =>
      have hsome : killExecution db u c reason =
          { db with executions :=
              db.executions.map (killRowUpdate u c reason) } := by
        unfold killExecution; rw [h1]
      have hfind2 : (db.executions.map (killRowUpdate u c reason)).find?
          (execKeyEq u c) = some (killRowUpdate u c reason r) := by
        rw [List.find?_map]
        have hc : (execKeyEq u c ∘ killRowUpdate u c reason) = execKeyEq u c :=
          funext fun x => killRowUpdate_key u c reason x
        rw [hc, h1]
        rfl
      rw [hsome]
      unfold killExecution
      simp only [hfind2]
      have : (db.executions.map (killRowUpdate u c reason)).map
          (killRowUpdate u c reason) =
          db.executions.map (killRowUpdate u c reason) := by
        rw [List.map_map]
        exact List.map_congr_left fun x _ => killRowUpdate_idem u c reason x
      simp only [this]

theorem mem_insertIgnorePair (tbl : List (String × String))
    (p q : String × String) :
    q ∈ insertIgnorePair tbl p ↔ q ∈ tbl ∨ q = p := by
  unfold insertIgnorePair
  by_cases h : p ∈ tbl
  · rw [if_pos h]
    constructor
    · exact Or.inl
    · rintro (hq | rfl)
      · exact hq
      · exact h
  · rw [if_neg h]
    simp

theorem mem_removePair (tbl : List (String × String)) (p q : String × String) :
    q ∈ removePair tbl p ↔ q ∈ tbl ∧ q ≠ p := by
  unfold removePair
  rw [List.mem_filter]
  simp

theorem campaignStep_other (db : St) (u : String) (snap : List String)
    (acc : List (String × String) × List String × List String)
    (c : CampaignRow) (x : String) (hx : c.id ≠ x) :
    ((u, x) ∈ (campaignStep db u snap acc c).1 ↔ (u, x) ∈ acc.1) := by
  unfold campaignStep
  by_cases h1 : campaignNeedsUpdate db u snap c
  · rw [if_pos h1]
    by_cases h2 : evaluateUserCampaign db u c.id
    · rw [if_pos h2]
      show (u, x) ∈ insertIgnorePair acc.1 (u, c.id) ↔ _
      rw [mem_insertIgnorePair]
      constructor
      · rintro (h | h)
        · exact h
        · exact absurd (congrArg Prod.snd h).symm hx
      · exact Or.inl
    · rw [if_neg h2]
      by_cases h3 : c.behavior ≠ Behavior.static
      · rw [if_pos h3]
        show (u, x) ∈ removePair acc.1 (u, c.id) ↔ _
        rw [mem_removePair]
        constructor
        · exact And.left
        · intro h
          exact ⟨h, fun he => hx (congrArg Prod.snd he).symm⟩
      · rw [if_neg h3]
  · rw [if_neg h1]

theorem campaignStep_self (db : St) (u : String) (snap : List String)
    (acc : List (String × String) × List String × List String)
    (c : CampaignRow) :
    ((u, c.id) ∈ (campaignStep db u snap acc c).1 ↔
      campaignPostMember db u snap c ((u, c.id) ∈ acc.1)) := by
  unfold campaignStep campaignPostMember
  by_cases h1 : campaignNeedsUpdate db u snap c
  · rw [if_pos h1, if_pos h1]
    by_cases h2 : evaluateUserCampaign db u c.id
    · rw [if_pos h2, if_pos h2]
      show (u, c.id) ∈ insertIgnorePair acc.1 (u, c.id) ↔ True
      rw [mem_insertIgnorePair]
      simp
    · rw [if_neg h2, if_neg h2]
      by_cases h3 : c.behavior ≠ Behavior.static
      · rw [if_pos h3, if_pos h3]
        show (u, c.id) ∈ removePair acc.1 (u, c.id) ↔ False
        rw [mem_removePair]
        simp
      · rw [if_neg h3, if_neg h3]
  · rw [if_neg h1, if_neg h1]

theorem foldl_campaignStep_other (db : St) (u : String) (snap : List String)
    (x : String) :
    ∀ (cs : List CampaignRow)
      (acc : List (String × String) × List String × List String),
      (∀ c ∈ cs, c.id ≠ x) →
      (((u, x) ∈ (cs.foldl (campaignStep db u snap) acc).1) ↔
        (u, x) ∈ acc.1) := by
  intro cs
  induction cs with
  | nil => intro acc _; rfl
  | cons c0 rest ih =>
    intro acc hall
    rw [List.foldl_cons]
    rw [ih (campaignStep db u snap acc c0) (fun c hc => hall c (.tail _ hc))]
    exact campaignStep_other db u snap acc c0 x (hall c0 (.head _))

theorem foldl_campaignStep_self (db : St) (u : String) (snap : List String)
    (c : CampaignRow) :
    ∀ (cs : List CampaignRow)
      (acc : List (String × String) × List String × List String),
      (cs.map (fun c => c.id)).Nodup → c ∈ cs →
      (((u, c.id) ∈ (cs.foldl (campaignStep db u snap) acc).1) ↔
        campaignPostMember db u snap c ((u, c.id) ∈ acc.1)) := by
  intro cs
  induction cs with
  | nil => intro acc _ hc; exact absurd hc (List.not_mem_nil c)
  | cons c0 rest ih =>
    intro acc hnd hc
    rw [List.map_cons, List.nodup_cons] at hnd
    rw [List.foldl_cons]
    rcases List.mem_cons.mp hc with rfl | htail
    · have hrest : ∀ c1 ∈ rest, c1.id ≠ c.id := by
        intro c1 h1 heq
        exact hnd.1 (heq ▸ List.mem_map.mpr ⟨c1, h1, rfl⟩)
      rw [foldl_campaignStep_other db u snap c.id rest _ hrest]
      exact campaignStep_self db u snap acc c
    · have hne : c0.id ≠ c.id := by
        intro heq
        exact hnd.1 (heq ▸ List.mem_map.mpr ⟨c, htail, rfl⟩)
      rw [ih (campaignStep db u snap acc c0) hnd.2 htail]
      rw [campaignStep_other db u snap acc c0 c.id hne]

theorem snap_contains_iff (db : St) (u x : String) :
    ((currentCampaignIdsOf db u).contains x = true) ↔
      ((u, x) ∈ db.campaignUsers) := by
  unfold currentCampaignIdsOf
  rw [List.contains_iff_exists_mem_beq]
  constructor
  · rintro ⟨y, hy, hbeq⟩
    rcases List.mem_map.mp hy with ⟨p, hp, rfl⟩
    rcases List.mem_filter.mp hp with ⟨hmem, hfst⟩
    have h1 : p.1 = u := by simpa using hfst
    have h2 : p.2 = x := by simpa using (beq_iff_eq.mp hbeq).symm
    have : p = (u, x) := Prod.ext h1 h2
    exact this ▸ hmem
  · intro h
    exact ⟨x, List.mem_map.mpr ⟨(u, x), List.mem_filter.mpr ⟨h, by simp⟩, rfl⟩,
      by simp⟩

/-- Claim C1: after evaluateUserCampaigns runs for a user, every matching
campaign has a membership row for the user; a static campaign membership is
never deleted; and a dynamic campaign membership exists exactly when the
user matches the campaign. -/
theorem evaluateUserCampaigns_memberships (db : St) (u : String)
    (hnd : (db.campaigns.map (fun c => c.id)).Nodup) :
    ∀ c ∈ db.campaigns,
      (evaluateUserCampaign db u c.id = true →
        (u, c.id) ∈ (evaluateUserCampaigns db u).1.campaignUsers) ∧
      (c.behavior = .static → (u, c.id) ∈ db.campaignUsers →
        (u, c.id) ∈ (evaluateUserCampaigns db u).1.campaignUsers) ∧
      (c.behavior = .dynamic →
        (((u, c.id) ∈ (evaluateUserCampaigns db u).1.campaignUsers) ↔
          evaluateUserCampaign db u c.id = true)) := by
  intro c hc
  have hmem : (((u, c.id) ∈ (evaluateUserCampaigns db u).1.campaignUsers) ↔
      campaignPostMember db u (currentCampaignIdsOf db u) c
        ((u, c.id) ∈ db.campaignUsers)) := by
    show ((u, c.id) ∈ (db.campaigns.foldl
      (campaignStep db u (currentCampaignIdsOf db u))
      (db.campaignUsers, [], [])).1 ↔ _)
    exact foldl_campaignStep_self db u (currentCampaignIdsOf db u) c
      db.campaigns (db.campaignUsers, [], []) hnd hc
  have hsnap : (c.id ∈ currentCampaignIdsOf db u) ↔
      ((u, c.id) ∈ db.campaignUsers) := by
    have h := snap_contains_iff db u c.id
    simpa using h
  refine ⟨?_, ?_, ?_⟩
  · intro hS
    rw [hmem]
    unfold campaignPostMember campaignNeedsUpdate
    by_cases hI : c.id ∈ currentCampaignIdsOf db u
    · cases hb : c.behavior <;> simp [hb, hS, hI] <;> exact hsnap.mp hI
    · cases hb : c.behavior <;> simp [hb, hS, hI]
  · intro hstat hbefore
    rw [hmem]
    unfold campaignPostMember campaignNeedsUpdate
    have hI : c.id ∈ currentCampaignIdsOf db u := hsnap.mpr hbefore
    simp [hstat, hI, hbefore]
  · intro hdyn
    rw [hmem]
    unfold campaignPostMember campaignNeedsUpdate
    by_cases hS : evaluateUserCampaign db u c.id <;>
      by_cases hI : c.id ∈ currentCampaignIdsOf db u <;>
      simp [hdyn, hS, hI]
    · exact hsnap.mp hI
    · exact fun h => hI (hsnap.mpr h)

/-- Witness for the campaign-membership theorem at a concrete store: the
dynamic campaign c2 loses its stale membership because the user is not in
its include segment. -/
theorem evaluateUserCampaigns_memberships_witness :
    (dbC1ex.campaigns.map (fun c => c.id)).Nodup ∧
    (CampaignRow.mk "c2" "flow2" .dynamic ∈ dbC1ex.campaigns) ∧
    ((("u", "c2") ∈ (evaluateUserCampaigns dbC1ex "u").1.campaignUsers) ↔
      evaluateUserCampaign dbC1ex "u" "c2" = true) :=
  ⟨by decide, by decide,
    (evaluateUserCampaigns_memberships dbC1ex "u" (by decide)
      (CampaignRow.mk "c2" "flow2" .dynamic) (by decide)).2.2 rfl⟩

theorem waitAddComponent_eq (t u : Int) (c : Option Int) :
    waitAddComponent t c u = t + c.getD 0 * u := by
  cases c with
  | none => simp [waitAddComponent]
  | some v =>
    by_cases h : v = 0
    · simp [waitAddComponent, h]
    · simp [waitAddComponent, h]

theorem applyWaitDuration_eq (now : Int) (d : Duration) :
    applyWaitDuration now d =
      now + (d.seconds.getD 0 * 1000 + d.minutes.getD 0 * 60000 +
        d.hours.getD 0 * 3600000 + d.days.getD 0 * 86400000 +
        d.weeks.getD 0 * (7 * 86400000)) := by
  unfold applyWaitDuration
  rw [waitAddComponent_eq, waitAddComponent_eq, waitAddComponent_eq,
    waitAddComponent_eq, waitAddComponent_eq]
  ring

/-- Claim C3: handling a WAIT command puts the execution row of the pair
to sleeping with sleep_until equal to now plus the sum of the duration
components, where a week counts as seven days and absent components
contribute nothing. -/
theorem handleExecutionCommand_wait_spec (env : Env) (now : Int) (db : St)
    (u c : String) (d : Duration) (user : UserRow) :
    handleExecutionCommand env now db u c (.wait (some d)) user =
      ({ db with executions := db.executions.map (fun r =>
          if execKeyEq u c r then
            { r with
              status := .sleeping
              sleepUntil := now + (d.seconds.getD 0 * 1000 +
                d.minutes.getD 0 * 60000 + d.hours.getD 0 * 3600000 +
                d.days.getD 0 * 86400000 + d.weeks.getD 0 * (7 * 86400000)) }
          else r) }, none) := by
  show (setExecutionSleeping db u c (applyWaitDuration now d), none) = _
  rw [applyWaitDuration_eq]
  rfl

/-- Witness for the killExecution theorem at a concrete store: killing a
missing pair is a no-op and killing the present pair terminates it. -/
theorem killExecution_idempotent_spec_witness :
    (dbC9ex.executions.find? (execKeyEq "nobody" "c") = none ∧
      killExecution dbC9ex "nobody" "c" "gone" = dbC9ex) ∧
    (∀ r ∈ (killExecution dbC9ex "u" "c" "gone").executions,
      r.userId = "u" → r.campaignId = "c" →
        r.status = .terminated ∧ r.error = some "gone") :=
  ⟨⟨by decide,
    (killExecution_idempotent_spec dbC9ex "nobody" "c" "gone").1 (by decide)⟩,
    (killExecution_idempotent_spec dbC9ex "u" "c" "gone").2.1⟩

theorem killExecution_sentEmails (db : St) (u c e : String) :
    (killExecution db u c e).sentEmails = db.sentEmails := by
  unfold killExecution
  cases db.executions.find? (execKeyEq u c) <;> rfl

theorem createExecutionsLoop_sentEmails (now : Int) (u : String) :
    ∀ (l : List String) (db : St),
      (createExecutionsLoop db now u l).1.sentEmails = db.sentEmails := by
  intro l
  induction l with
  | nil => intro db; rfl
  | cons cid rest ih =>
    intro db
    unfold createExecutionsLoop createExecution
    cases findCampaign db cid with
    | none => rfl
    | some _ =>
      by_cases h : db.executions.any (execKeyEq u cid)
      · simp only [h, if_pos]
      · simp only [h, if_neg, Bool.false_eq_true, not_false_iff]
        exact ih _

theorem foldl_killExecution_sentEmails (u reason : String) :
    ∀ (cs : List CampaignRow) (db : St),
      (cs.foldl (fun d c => killExecution d u c.id reason) db).sentEmails =
        db.sentEmails := by
  intro cs
  induction cs with
  | nil => intro db; rfl
  | cons c rest ih =>
    intro db
    rw [List.foldl_cons, ih, killExecution_sentEmails]

theorem killRemovedDynamic_sentEmails (db : St) (u reason : String)
    (removed : List String) :
    (killRemovedDynamic db u reason removed).sentEmails = db.sentEmails := by
  unfold killRemovedDynamic
  exact foldl_killExecution_sentEmails u reason _ db

theorem reevalFinish_sentEmails (db3 : St) (err : Option String)
    (u reason : String) (removed : List String) :
    (reevalFinish db3 err u reason removed).1.sentEmails = db3.sentEmails := by
  cases err with
  | some e => rfl
  | none =>
    show (killRemovedDynamic db3 u reason removed).sentEmails = _
    exact killRemovedDynamic_sentEmails db3 u reason removed

theorem reevaluateUserMemberships_sentEmails (env : Env) (db : St) (now : Int)
    (u reason : String) :
    (reevaluateUserMemberships env db now u reason).1.sentEmails =
      db.sentEmails := by
  unfold reevaluateUserMemberships
  refine (reevalFinish_sentEmails _ _ _ _ _).trans ?_
  exact (createExecutionsLoop_sentEmails now u _ _).trans rfl

theorem insertExecutionHistory_sentEmails (db db1 : St) (u c : String)
    (i : Nat) (a : Attributes)
    (h : insertExecutionHistory db u c i a = .ok db1) :
    db1.sentEmails = db.sentEmails := by
  unfold insertExecutionHistory at h
  by_cases hd : db.executionHistory.any
      (fun hh => hh.userId == u && hh.campaignId == c && hh.stepIndex == i)
  · rw [if_pos hd] at h; exact absurd h (by simp)
  · rw [if_neg hd] at h
    cases h
    rfl

theorem writebackStage_sentEmails (env : Env) (now : Int) (db1 : St)
    (u : String) (user : UserRow) (res : SandboxStepResult) :
    (writebackStage env now db1 u user res).1.sentEmails = db1.sentEmails := by
  unfold writebackStage
  by_cases h : res.attributes = user.attributes
  · rw [if_pos h]
  · rw [if_neg h]
    exact reevaluateUserMemberships_sentEmails env _ now u _

theorem setExecutionCompleted_rows (db : St) (u c : String) :
    ∀ r ∈ (setExecutionCompleted db u c).executions,
      r.userId = u → r.campaignId = c → r.status = .completed := by
  intro r hr hu hc
  simp only [setExecutionCompleted] at hr
  rcases List.mem_map.mp hr with ⟨r0, _, hr0⟩
  by_cases hk : execKeyEq u c r0
  · rw [if_pos hk] at hr0
    rw [← hr0]
  · rw [if_neg hk] at hr0
    rw [← hr0] at hu hc
    exact absurd ((execKeyEq_iff u c r0).mpr ⟨hu, hc⟩) hk

theorem setExecutionFailed_rows (db : St) (u c msg : String) :
    ∀ r ∈ (setExecutionFailed db u c msg).executions,
      r.userId = u → r.campaignId = c →
        r.status = .failed ∧ r.error = some msg := by
  intro r hr hu hc
  simp only [setExecutionFailed] at hr
  rcases List.mem_map.mp hr with ⟨r0, _, hr0⟩
  by_cases hk : execKeyEq u c r0
  · rw [if_pos hk] at hr0
    rw [← hr0]
    exact ⟨rfl, rfl⟩
  · rw [if_neg hk] at hr0
    rw [← hr0] at hu hc
    exact absurd ((execKeyEq_iff u c r0).mpr ⟨hu, hc⟩) hk

theorem processExecution_falsy_helper (env : Env) (now : Int) (db : St)
    (state : ExecutionState) (setup : SetupResult) (db1 db2 : St)
    (res : SandboxStepResult)
    (h1 : setupExecutionState db state = .ok setup)
    (h2 : dynamicPrecheckFails db state.userId setup = false)
    (h3 : insertExecutionHistory db state.userId state.campaignId
      setup.stepIndex setup.user.attributes = .ok db1)
    (h4 : env.step setup.campaign.flow setup.attributeStates setup.stepIndex
      = .ok res)
    (h5 : writebackStage env now db1 state.userId setup.user res = (db2, none))
    (hv : truthy res.value = false) :
    (res.done = true →
      processExecution env now db state =
        (setExecutionCompleted db2 state.userId state.campaignId, true)) ∧
    (res.done = false →
      processExecution env now db state =
        (setExecutionFailed db2 state.userId state.campaignId
          "Generator yielded undefined", false)) ∧
    db2.sentEmails = db.sentEmails := by
  refine ⟨fun hd => ?_, fun hd => ?_, ?_⟩
  · simp [processExecution, h1, h2, h3, h4, h5, hv, hd]
  · simp [processExecution, h1, h2, h3, h4, h5, hv, hd]
  · have e1 := insertExecutionHistory_sentEmails db db1 state.userId
      state.campaignId setup.stepIndex setup.user.attributes h3
    have e2 : db2.sentEmails = db1.sentEmails := by
      have h := writebackStage_sentEmails env now db1 state.userId
        setup.user res
      rw [h5] at h
      exact h
    exact e2.trans e1

/-- Claim C2: when the sandbox step returns done with an undefined value
the execution is completed, and when it returns an undefined value without
done the execution is failed with the message Generator yielded undefined;
in both cases no command runs, so no email leaves and the row ends in the
stated status. -/
theorem processExecution_undefined_yield_spec (env : Env) (now : Int)
    (db : St) (state : ExecutionState) (setup : SetupResult) (db1 db2 : St)
    (res : SandboxStepResult)
    (h1 : setupExecutionState db state = .ok setup)
    (h2 : dynamicPrecheckFails db state.userId setup = false)
    (h3 : insertExecutionHistory db state.userId state.campaignId
      setup.stepIndex setup.user.attributes = .ok db1)
    (h4 : env.step setup.campaign.flow setup.attributeStates setup.stepIndex
      = .ok res)
    (h5 : writebackStage env now db1 state.userId setup.user res = (db2, none))
    (hv : res.value = .undef) :
    (res.done = true →
      processExecution env now db state =
        (setExecutionCompleted db2 state.userId state.campaignId, true) ∧
      (∀ r ∈ (processExecution env now db state).1.executions,
        r.userId = state.userId → r.campaignId = state.campaignId →
          r.status = .completed) ∧
      (processExecution env now db state).1.sentEmails = db.sentEmails) ∧
    (res.done = false →
      processExecution env now db state =
        (setExecutionFailed db2 state.userId state.campaignId
          "Generator yielded undefined", false) ∧
      (∀ r ∈ (processExecution env now db state).1.executions,
        r.userId = state.userId → r.campaignId = state.campaignId →
          r.status = .failed ∧ r.error = some "Generator yielded undefined") ∧
      (processExecution env now db state).1.sentEmails = db.sentEmails) := by
  have htv : truthy res.value = false := by rw [hv]; rfl
  obtain ⟨hcompl, hfail, hse⟩ :=
    processExecution_falsy_helper env now db state setup db1 db2 res
      h1 h2 h3 h4 h5 htv
  constructor
  · intro hd
    have heq := hcompl hd
    refine ⟨heq, ?_, ?_⟩
    · rw [heq]
      exact setExecutionCompleted_rows db2 state.userId state.campaignId
    · rw [heq]
      exact hse
  · intro hd
    have heq := hfail hd
    refine ⟨heq, ?_, ?_⟩
    · rw [heq]
      exact setExecutionFailed_rows db2 state.userId state.campaignId _
    · rw [heq]
      exact hse

/-- Witness for the undefined-yield theorem: a concrete pending execution
whose sandbox step returns done with an undefined value completes. -/
theorem processExecution_undefined_yield_spec_witness :
    processExecution envUndef 0 dbC9ex stateC9 =
      (setExecutionCompleted dbC9hist "u" "c", true) := by
  have h := processExecution_undefined_yield_spec envUndef 0 dbC9ex stateC9
    setupC9 dbC9hist dbC9hist ⟨.undef, true, [("email", .str "u@x")]⟩
    rfl rfl rfl rfl rfl rfl
  exact (h.1 rfl).1

/-- Claim C10: the executor classifies the step result by JS truthiness
only, so a defined but falsy yielded value (zero, false, the empty string
or null) is treated exactly like an undefined yield: the execution fails
with Generator yielded undefined (or completes when done is also set) and
the value is never interpreted as a command. -/
theorem processExecution_falsy_value_spec (env : Env) (now : Int)
    (db : St) (state : ExecutionState) (setup : SetupResult) (db1 db2 : St)
    (res : SandboxStepResult)
    (h1 : setupExecutionState db state = .ok setup)
    (h2 : dynamicPrecheckFails db state.userId setup = false)
    (h3 : insertExecutionHistory db state.userId state.campaignId
      setup.stepIndex setup.user.attributes = .ok db1)
    (h4 : env.step setup.campaign.flow setup.attributeStates setup.stepIndex
      = .ok res)
    (h5 : writebackStage env now db1 state.userId setup.user res = (db2, none))
    (hv : truthy res.value = false) :
    (truthy (.vnum 0) = false ∧ truthy (.vbool false) = false ∧
      truthy (.vstr "") = false ∧ truthy .vnull = false) ∧
    (res.done = false →
      processExecution env now db state =
        (setExecutionFailed db2 state.userId state.campaignId
          "Generator yielded undefined", false)) ∧
    (res.done = true →
      processExecution env now db state =
        (setExecutionCompleted db2 state.userId state.campaignId, true)) ∧
    (processExecution env now db state).1.sentEmails = db.sentEmails := by
  obtain ⟨hcompl, hfail, hse⟩ :=
    processExecution_falsy_helper env now db state setup db1 db2 res
      h1 h2 h3 h4 h5 hv
  refine ⟨⟨by decide, rfl, by decide, rfl⟩, hfail, hcompl, ?_⟩
  cases hd : res.done
  · rw [hfail hd]
    exact hse
  · rw [hcompl hd]
    exact hse

/-- Witness for the falsy-value theorem: a concrete pending execution
whose sandbox step yields the number zero is marked failed. -/
theorem processExecution_falsy_value_spec_witness :
    processExecution envZero 0 dbC9ex stateC9 =
      (setExecutionFailed dbC9hist "u" "c" "Generator yielded undefined",
        false) := by
  have h := processExecution_falsy_value_spec envZero 0 dbC9ex stateC9
    setupC9 dbC9hist dbC9hist ⟨.vnum 0, false, [("email", .str "u@x")]⟩
    rfl rfl rfl rfl rfl (by decide)
  exact h.2.1 rfl

theorem genOutAt_eq {σ : Type} (g : Gen σ) (as : List Attributes) (m : Nat) :
    genOutAt g as m = g.next (stateBeforeIdx g as m) as[m]? := by
  cases m <;> rfl

theorem execGenLoop_trace {σ : Type} (g : Gen σ) (as : List Attributes) :
    ∀ (n m : Nat),
      ((∀ i, m ≤ i → i < m + n → (genOutAt g as i).done = false) →
        execGenLoop g.next as (stateBeforeIdx g as m) m n =
          ⟨(genOutAt g as (m + n)).value, (genOutAt g as (m + n)).done,
            (genOutAt g as (m + n)).ctxAttrs⟩) ∧
      (∀ j, m ≤ j → j < m + n → (genOutAt g as j).done = true →
        (∀ i, m ≤ i → i < j → (genOutAt g as i).done = false) →
        execGenLoop g.next as (stateBeforeIdx g as m) m n =
          ⟨(genOutAt g as j).value, true, (genOutAt g as j).ctxAttrs⟩) := by
  intro n
  induction n with
  | zero =>
    intro m
    constructor
    · intro _
      rw [Nat.add_zero]
      rw [genOutAt_eq]
      cases hd : (g.next (stateBeforeIdx g as m) as[m]?).done <;>
        simp [execGenLoop, hd]
    · intro j h1 h2
      omega
  | succ n1 ih =>
    intro m
    have hst : (genOutAt g as m).state = stateBeforeIdx g as (m + 1) := rfl
    by_cases hd : (genOutAt g as m).done
    · constructor
      · intro hall
        exact absurd (hall m (Nat.le_refl m) (by omega)) (by simp [hd])
      · intro j hmj hjn hjd hprev
        have hjm : j = m := by
          by_contra hne
          have hlt : m < j := Nat.lt_of_le_of_ne hmj (Ne.symm hne)
          exact absurd (hprev m (Nat.le_refl m) hlt) (by simp [hd])
        subst hjm
        rw [genOutAt_eq] at hd ⊢
        simp [execGenLoop, hd]
    · have hstep : execGenLoop g.next as (stateBeforeIdx g as m) m (n1 + 1) =
          execGenLoop g.next as (stateBeforeIdx g as (m + 1)) (m + 1) n1 := by
        rw [← hst]
        rw [genOutAt_eq] at hd
        simp [execGenLoop, hd]
        rw [genOutAt_eq]
      constructor
      · intro hall
        rw [hstep]
        have hr := (ih (m + 1)).1
          (fun i hi1 hi2 => hall i (by omega) (by omega))
        rw [hr]
        have harith : m + 1 + n1 = m + (n1 + 1) := by omega
        rw [harith]
      · intro j hmj hjn hjd hprev
        have hjm : m < j := by
          rcases Nat.eq_or_lt_of_le hmj with heq | hlt
          · exact absurd (heq ▸ hjd) (by simp [hd])
          · exact hlt
        rw [hstep]
        exact (ih (m + 1)).2 j (by omega) (by omega) hjd
          (fun i hi1 hi2 => hprev i (by omega) hi2)

/-- Claim C4 (amended): executeGeneratorToIndex drives the generator from
its beginning, rebinding ctx.attributes from the attribute states before
each advance; when no advance among the first targetIndex finishes, it
makes exactly targetIndex+1 advances and returns the last yielded value
with the ctx.attributes read after that advance; when the generator
finishes at an earlier advance j, it stops there with done true, the
returned value being the generator result value (undefined only for a bare
return). -/
theorem executeGeneratorToIndex_trace_spec {σ : Type} (g : Gen σ)
    (as : List Attributes) (k : Nat) (hlen : k + 1 ≤ as.length) :
    ((∀ i, i < k → (genOutAt g as i).done = false) →
      executeGeneratorToIndex g as k =
        ⟨(genOutAt g as k).value, (genOutAt g as k).done,
          (genOutAt g as k).ctxAttrs⟩) ∧
    (∀ j, j < k → (genOutAt g as j).done = true →
      (∀ i, i < j → (genOutAt g as i).done = false) →
      executeGeneratorToIndex g as k =
        ⟨(genOutAt g as j).value, true, (genOutAt g as j).ctxAttrs⟩) := by
  have h := execGenLoop_trace g as k 0
  constructor
  · intro hall
    have hr := h.1 (fun i hi1 hi2 => hall i (by omega))
    have : executeGeneratorToIndex g as k =
        execGenLoop g.next as (stateBeforeIdx g as 0) 0 k := rfl
    rw [this, hr, Nat.zero_add]
  · intro j hj hjd hprev
    have hr := h.2 j (by omega) (by omega) hjd (fun i hi1 hi2 => hprev i hi2)
    have : executeGeneratorToIndex g as k =
        execGenLoop g.next as (stateBeforeIdx g as 0) 0 k := rfl
    rw [this, hr]

/-- Witness for the trace theorem: a never-finishing counter generator
driven to index 1 returns its second advance. -/
theorem executeGeneratorToIndex_trace_spec_witness :
    1 + 1 ≤ ([[("x", .num 1)], [("x", .num 2)]] : List Attributes).length ∧
    executeGeneratorToIndex genCount [[("x", .num 1)], [("x", .num 2)]] 1 =
      ⟨(genOutAt genCount [[("x", .num 1)], [("x", .num 2)]] 1).value,
        (genOutAt genCount [[("x", .num 1)], [("x", .num 2)]] 1).done,
        (genOutAt genCount [[("x", .num 1)], [("x", .num 2)]] 1).ctxAttrs⟩ :=
  ⟨by decide,
    (executeGeneratorToIndex_trace_spec genCount
      [[("x", .num 1)], [("x", .num 2)]] 1 (by decide)).1
      (fun i hi => by
        rw [Nat.lt_one_iff] at hi
        subst hi
        rfl)⟩

/-- Counterexample to claim C4 as stated: a generator that returns the
value 7 before producing targetIndex+1 yields ends with done true but with
value 7, not undefined. -/
theorem executeGeneratorToIndex_return_value_counterexample :
    2 ≤ ([[("x", .num 1)], [("x", .num 2)]] : List Attributes).length ∧
    (executeGeneratorToIndex genReturnSeven
      [[("x", .num 1)], [("x", .num 2)]] 1).done = true ∧
    (executeGeneratorToIndex genReturnSeven
      [[("x", .num 1)], [("x", .num 2)]] 1).value ≠ Yielded.undef ∧
    (executeGeneratorToIndex genReturnSeven
      [[("x", .num 1)], [("x", .num 2)]] 1).value = .vnum 7 := by
  refine ⟨by decide, rfl, by decide, rfl⟩

theorem contains_of_mem_str (l : List String) (a : String) (h : a ∈ l) :
    l.contains a = true := by
  rw [List.contains_iff_exists_mem_beq]
  exact ⟨a, h, by simp⟩

theorem recGet_of_mem_keys {τ : Type} (l : List (String × τ)) (id : String)
    (h : id ∈ recKeys l) : ∃ d, recGet l id = some d := by
  unfold recKeys at h
  rw [List.mem_dedup] at h
  rcases List.mem_map.mp h with ⟨p, hp, rfl⟩
  unfold recGet
  cases hf : l.find? (fun q => q.1 == p.1) with
  | none =>
    have hn := List.find?_eq_none.mp hf p hp
    simp at hn
  | some q =>
    exact ⟨q.2, rfl⟩

theorem computeOperations_self {τ : Type} (differs : τ → τ → Bool)
    (hrefl : ∀ x, differs x x = false) (l : List (String × τ)) :
    computeOperations differs l l = [] := by
  unfold computeOperations
  refine List.append_eq_nil.mpr ⟨?_, ?_⟩
  · rw [List.filterMap_eq_nil]
    intro id hid
    rw [if_pos (contains_of_mem_str _ id hid)]
  · rw [List.filterMap_eq_nil]
    intro id hid
    rcases recGet_of_mem_keys l id hid with ⟨d, hget⟩
    simp [hget, hid, hrefl]

theorem createConfig_noop_of_last (cs : ConfigState) (cfg : Segflow)
    (hlast : lastAcceptedConfig cs = some cfg) :
    ((analyzeConfig cs cfg).templateOperations = [] ∧
     (analyzeConfig cs cfg).segmentOperations = [] ∧
     (analyzeConfig cs cfg).campaignOperations = [] ∧
     (analyzeConfig cs cfg).transactionOperations = [] ∧
     (analyzeConfig cs cfg).emailProviderOperations = []) ∧
    createConfig cs cfg = .ok (cs, none, []) := by
  have hd : analyzeConfig cs cfg = analyzeConfigPure (some cfg) cfg := by
    unfold analyzeConfig
    rw [hlast]
  have h1 : (analyzeConfig cs cfg).templateOperations = [] := by
    rw [hd]
    exact computeOperations_self templateDiffers
      (fun x => by simp [templateDiffers]) cfg.templates
  have h2 : (analyzeConfig cs cfg).segmentOperations = [] := by
    rw [hd]
    exact computeOperations_self segmentDiffers
      (fun x => by simp [segmentDiffers]) cfg.segments
  have h3 : (analyzeConfig cs cfg).campaignOperations = [] := by
    rw [hd]
    exact computeOperations_self campaignDiffers
      (fun x => by simp [campaignDiffers]) cfg.campaigns
  have h4 : (analyzeConfig cs cfg).transactionOperations = [] := by
    rw [hd]
    exact computeOperations_self transactionDiffers
      (fun x => by simp [transactionDiffers]) cfg.transactions
  have h5 : (analyzeConfig cs cfg).emailProviderOperations = [] := by
    rw [hd]
    show computeEmailProviderOperations (some cfg.emailProvider)
      cfg.emailProvider = []
    simp [computeEmailProviderOperations]
  have hempty : deltaIsEmpty (analyzeConfig cs cfg) = true := by
    unfold deltaIsEmpty
    rw [h1, h2, h3, h4, h5]
    rfl
  refine ⟨⟨h1, h2, h3, h4, h5⟩, ?_⟩
  simp [createConfig, hempty]

/-- Claim C5: pushing a configuration identical to the last accepted one
computes zero operations in every category, writes no Config row and
reports no changes; hence after a successful push the same push again
leaves the ledger and all entity tables untouched (no service calls). -/
theorem createConfig_idempotent_spec (cs : ConfigState) (cfg : Segflow) :
    (lastAcceptedConfig cs = some cfg →
      ((analyzeConfig cs cfg).templateOperations = [] ∧
       (analyzeConfig cs cfg).segmentOperations = [] ∧
       (analyzeConfig cs cfg).campaignOperations = [] ∧
       (analyzeConfig cs cfg).transactionOperations = [] ∧
       (analyzeConfig cs cfg).emailProviderOperations = []) ∧
      createConfig cs cfg = .ok (cs, none, [])) ∧
    (∀ (cs1 : ConfigState) (id : Nat) (acts : List ConfigAction),
      createConfig cs cfg = .ok (cs1, some id, acts) →
      createConfig cs1 cfg = .ok (cs1, none, [])) := by
  constructor
  · exact createConfig_noop_of_last cs cfg
  · intro cs1 id acts heq
    simp only [createConfig] at heq
    by_cases hde : deltaIsEmpty (analyzeConfig cs cfg) = true
    · rw [if_pos hde] at heq
      simp at heq
    · rw [if_neg hde] at heq
      cases hcr : (executeConfigDelta (analyzeConfig cs cfg)).2 with
      | some e =>
        rw [hcr] at heq
        exact absurd heq (by simp)
      | none =>
        rw [hcr] at heq
        by_cases h0 : cs.nextConfigId = 0
        · rw [if_pos h0] at heq
          exact absurd heq (by simp)
        · rw [if_neg h0] at heq
          simp only [Except.ok.injEq, Prod.mk.injEq] at heq
          obtain ⟨hs, _, _⟩ := heq
          have hlast1 : lastAcceptedConfig cs1 = some cfg := by
            rw [← hs]
            rfl
          exact (createConfig_noop_of_last cs1 cfg hlast1).2

/-- Witness for the push-idempotence theorem: pushing cfgC5 onto a ledger
whose newest row is cfgC5 is a no-op, both directly and as the second of
two identical pushes. -/
theorem createConfig_idempotent_spec_witness :
    (lastAcceptedConfig csC5 = some cfgC5 ∧
      createConfig csC5 cfgC5 = .ok (csC5, none, [])) ∧
    (createConfig csC5empty cfgC5 = .ok (csC5, some 1, actsC5) ∧
      createConfig csC5 cfgC5 = .ok (csC5, none, [])) :=
  ⟨⟨rfl, ((createConfig_idempotent_spec csC5 cfgC5).1 rfl).2⟩,
   ⟨rfl,
    (createConfig_idempotent_spec csC5empty cfgC5).2 csC5 1 actsC5 rfl⟩⟩

theorem computeOperations_split {τ : Type} (differs : τ → τ → Bool)
    (old new : List (String × τ)) :
    ∃ dels ups, computeOperations differs old new = dels ++ ups ∧
      (∀ a ∈ dels, ∃ id, a = ConfigOp.del id) ∧
      (∀ a ∈ ups, (∃ id d, a = ConfigOp.add id d) ∨
        (∃ id d, a = ConfigOp.update id d)) := by
  refine ⟨_, _, rfl, ?_, ?_⟩
  · intro a ha
    rcases List.mem_filterMap.mp ha with ⟨id, _, hf⟩
    by_cases h : (recKeys new).contains id
    · rw [if_pos h] at hf
      cases hf
    · rw [if_neg h] at hf
      exact ⟨id, (Option.some.inj hf).symm⟩
  · intro a ha
    rcases List.mem_filterMap.mp ha with ⟨id, _, hf⟩
    split at hf
    · cases hf
    · split at hf
      · split at hf
        · cases hf
        · split at hf
          · exact Or.inr ⟨id, _, (Option.some.inj hf).symm⟩
          · cases hf
      · exact Or.inl ⟨id, _, (Option.some.inj hf).symm⟩

theorem pairwise_fle_of_const {α : Type} (f : α → Nat) (l : List α) (k : Nat)
    (h : ∀ a ∈ l, f a = k) : l.Pairwise (fun x y => f x ≤ f y) := by
  induction l with
  | nil => exact List.Pairwise.nil
  | cons x xs ih =>
    refine List.Pairwise.cons ?_ (ih fun a ha => h a (List.mem_cons_of_mem x ha))
    intro b hb
    rw [h x (List.mem_cons_self x xs), h b (List.mem_cons_of_mem x hb)]

theorem mapped_category_pairwise {τ : Type} (differs : τ → τ → Bool)
    (old new : List (String × τ)) (act : ConfigOp τ → ConfigAction)
    (dk uk : Nat) (hdu : dk ≤ uk)
    (hdel : ∀ id, actionRank (act (.del id)) = dk)
    (hadd : ∀ id d, actionRank (act (.add id d)) = uk)
    (hupd : ∀ id d, actionRank (act (.update id d)) = uk) :
    ((computeOperations differs old new).map act).Pairwise rankLe ∧
    (∀ a ∈ (computeOperations differs old new).map act,
      dk ≤ actionRank a ∧ actionRank a ≤ uk) := by
  obtain ⟨dels, ups, heq, hd, hu⟩ := computeOperations_split differs old new
  rw [heq, List.map_append]
  have hdm : ∀ a ∈ dels.map act, actionRank a = dk := by
    intro a ha
    rcases List.mem_map.mp ha with ⟨op, hop, rfl⟩
    rcases hd op hop with ⟨id, rfl⟩
    exact hdel id
  have hum : ∀ a ∈ ups.map act, actionRank a = uk := by
    intro a ha
    rcases List.mem_map.mp ha with ⟨op, hop, rfl⟩
    rcases hu op hop with ⟨id, d, rfl⟩ | ⟨id, d, rfl⟩
    · exact hadd id d
    · exact hupd id d
  constructor
  · refine List.pairwise_append.mpr
      ⟨pairwise_fle_of_const actionRank _ dk hdm,
       pairwise_fle_of_const actionRank _ uk hum, ?_⟩
    intro a ha b hb
    show actionRank a ≤ actionRank b
    rw [hdm a ha, hum b hb]
    exact hdu
  · intro a ha
    rcases List.mem_append.mp ha with h | h
    · rw [hdm a h]
      exact ⟨Nat.le_refl _, hdu⟩
    · rw [hum a h]
      exact ⟨hdu, Nat.le_refl _⟩

theorem runCampaignOps_pairwise :
    ∀ ops : List (ConfigOp Campaign),
      ops.Pairwise (fun o1 o2 => campOpRank o1 ≤ campOpRank o2) →
      ((runCampaignOps ops).1.Pairwise rankLe ∧
        ∀ a ∈ (runCampaignOps ops).1, ∃ op ∈ ops, actionRank a = campOpRank op) := by
  intro ops
  induction ops with
  | nil =>
    intro _
    exact ⟨List.Pairwise.nil, fun a ha => absurd ha (List.not_mem_nil a)⟩
  | cons op rest ih =>
    intro hp
    rw [List.pairwise_cons] at hp
    obtain ⟨hop, hrest⟩ := hp
    obtain ⟨ihp, ihm⟩ := ih hrest
    cases op with
    | update id d =>
      refine ⟨List.Pairwise.nil, ?_⟩
      intro a ha
      exact absurd ha (List.not_mem_nil a)
    | add id d =>
      constructor
      · show (ConfigAction.createCampaign id d ::
          (runCampaignOps rest).1).Pairwise rankLe
        refine List.Pairwise.cons ?_ ihp
        intro b hb
        rcases ihm b hb with ⟨op2, hop2, hr⟩
        show actionRank (.createCampaign id d) ≤ actionRank b
        rw [hr]
        exact hop op2 hop2
      · intro a ha
        have ha2 : a ∈ ConfigAction.createCampaign id d ::
          (runCampaignOps rest).1 := ha
        rcases List.mem_cons.mp ha2 with rfl | h
        · exact ⟨.add id d, List.mem_cons_self _ _, rfl⟩
        · rcases ihm a h with ⟨op2, hop2, hr⟩
          exact ⟨op2, List.mem_cons_of_mem _ hop2, hr⟩
    | del id =>
      constructor
      · show (ConfigAction.deleteCampaign id ::
          (runCampaignOps rest).1).Pairwise rankLe
        refine List.Pairwise.cons ?_ ihp
        intro b hb
        rcases ihm b hb with ⟨op2, hop2, hr⟩
        show actionRank (.deleteCampaign id) ≤ actionRank b
        rw [hr]
        exact hop op2 hop2
      · intro a ha
        have ha2 : a ∈ ConfigAction.deleteCampaign id ::
          (runCampaignOps rest).1 := ha
        rcases List.mem_cons.mp ha2 with rfl | h
        · exact ⟨.del id, List.mem_cons_self _ _, rfl⟩
        · rcases ihm a h with ⟨op2, hop2, hr⟩
          exact ⟨op2, List.mem_cons_of_mem _ hop2, hr⟩

theorem computeCampaignOperations_opPairwise
    (old new : List (String × Campaign)) :
    (computeCampaignOperations old new).Pairwise
      (fun o1 o2 => campOpRank o1 ≤ campOpRank o2) := by
  obtain ⟨dels, ups, heq, hd, hu⟩ :=
    computeOperations_split campaignDiffers old new
  unfold computeCampaignOperations
  rw [heq]
  have hdm : ∀ op ∈ dels, campOpRank op = 6 := by
    intro op hop
    rcases hd op hop with ⟨id, rfl⟩
    rfl
  have hum : ∀ op ∈ ups, campOpRank op = 7 := by
    intro op hop
    rcases hu op hop with ⟨id, d, rfl⟩ | ⟨id, d, rfl⟩ <;> rfl
  refine List.pairwise_append.mpr
    ⟨pairwise_fle_of_const campOpRank _ 6 hdm,
     pairwise_fle_of_const campOpRank _ 7 hum, ?_⟩
  intro a ha b hb
  show campOpRank a ≤ campOpRank b
  rw [hdm a ha, hum b hb]
  omega

theorem pairwise_rankLe_append (l1 l2 : List ConfigAction)
    (h1 : l1.Pairwise rankLe) (h2 : l2.Pairwise rankLe)
    (hc : ∀ a ∈ l1, ∀ b ∈ l2, actionRank a ≤ actionRank b) :
    (l1 ++ l2).Pairwise rankLe :=
  List.pairwise_append.mpr ⟨h1, h2, hc⟩

/-- Claim C6 (amended): executeConfigDelta applies the operations of an
analyzed delta in the fixed category order templates, transactions,
segments, campaigns, emailProvider, and within each category all deletes
come before any adds or updates (adds and updates run interleaved in the
new configuration's key order). -/
theorem executeConfigDelta_order_spec (lastConfig : Option Segflow)
    (newConfig : Segflow) :
    ((executeConfigDelta (analyzeConfigPure lastConfig newConfig)).1).Pairwise
      rankLe := by
  obtain ⟨htp0, htb0⟩ := mapped_category_pairwise templateDiffers
    (oldTemplates lastConfig)
    newConfig.templates templateOpAction 0 1 (by omega)
    (fun id => rfl) (fun id d => rfl) (fun id d => rfl)
  obtain ⟨hxp0, hxb0⟩ := mapped_category_pairwise transactionDiffers
    (oldTransactions lastConfig)
    newConfig.transactions transactionOpAction 2 3 (by omega)
    (fun id => rfl) (fun id d => rfl) (fun id d => rfl)
  obtain ⟨hsp0, hsb0⟩ := mapped_category_pairwise segmentDiffers
    (oldSegments lastConfig)
    newConfig.segments segmentOpAction 4 5 (by omega)
    (fun id => rfl) (fun id d => rfl) (fun id d => rfl)
  have htp : ((analyzeConfigPure lastConfig newConfig).templateOperations.map
      templateOpAction).Pairwise rankLe := htp0
  have htb : ∀ a ∈ (analyzeConfigPure lastConfig
      newConfig).templateOperations.map templateOpAction,
      0 ≤ actionRank a ∧ actionRank a ≤ 1 := htb0
  have hxp : ((analyzeConfigPure lastConfig
      newConfig).transactionOperations.map
      transactionOpAction).Pairwise rankLe := hxp0
  have hxb : ∀ a ∈ (analyzeConfigPure lastConfig
      newConfig).transactionOperations.map transactionOpAction,
      2 ≤ actionRank a ∧ actionRank a ≤ 3 := hxb0
  have hsp : ((analyzeConfigPure lastConfig newConfig).segmentOperations.map
      segmentOpAction).Pairwise rankLe := hsp0
  have hsb : ∀ a ∈ (analyzeConfigPure lastConfig
      newConfig).segmentOperations.map segmentOpAction,
      4 ≤ actionRank a ∧ actionRank a ≤ 5 := hsb0
  have hcops : ((analyzeConfigPure lastConfig
      newConfig).campaignOperations).Pairwise
      (fun o1 o2 => campOpRank o1 ≤ campOpRank o2) :=
    computeCampaignOperations_opPairwise
      (oldCampaigns lastConfig)
      newConfig.campaigns
  obtain ⟨hcp, hcm⟩ := runCampaignOps_pairwise
    (analyzeConfigPure lastConfig newConfig).campaignOperations hcops
  have hcb : ∀ a ∈ (runCampaignOps (analyzeConfigPure lastConfig
      newConfig).campaignOperations).1,
      6 ≤ actionRank a ∧ actionRank a ≤ 7 := by
    intro a ha
    rcases hcm a ha with ⟨op, _, hr⟩
    rw [hr]
    cases op <;> simp [campOpRank]
  have hpm : ∀ a ∈ (analyzeConfigPure lastConfig
      newConfig).emailProviderOperations.map
      (fun op => match op with | ProviderOp.update d => ConfigAction.setEmailProvider d),
      actionRank a = 8 := by
    intro a ha
    rcases List.mem_map.mp ha with ⟨op, _, rfl⟩
    cases op
    rfl
  have hpp := pairwise_fle_of_const actionRank _ 8 hpm
  have h12 := pairwise_rankLe_append _ _ htp hxp (by
    intro a ha b hb
    have h1 := (htb a ha).2
    have h2 := (hxb b hb).1
    omega)
  have ub12 : ∀ a ∈ (analyzeConfigPure lastConfig
      newConfig).templateOperations.map templateOpAction ++
      (analyzeConfigPure lastConfig newConfig).transactionOperations.map
        transactionOpAction, actionRank a ≤ 3 := by
    intro a ha
    rcases List.mem_append.mp ha with h | h
    · have := (htb a h).2
      omega
    · exact (hxb a h).2
  have h123 := pairwise_rankLe_append _ _ h12 hsp (by
    intro a ha b hb
    have h1 := ub12 a ha
    have h2 := (hsb b hb).1
    omega)
  have ub123 : ∀ a ∈ ((analyzeConfigPure lastConfig
      newConfig).templateOperations.map templateOpAction ++
      (analyzeConfigPure lastConfig newConfig).transactionOperations.map
        transactionOpAction) ++
      (analyzeConfigPure lastConfig newConfig).segmentOperations.map
        segmentOpAction, actionRank a ≤ 5 := by
    intro a ha
    rcases List.mem_append.mp ha with h | h
    · have := ub12 a h
      omega
    · exact (hsb a h).2
  have h1234 := pairwise_rankLe_append _ _ h123 hcp (by
    intro a ha b hb
    have h1 := ub123 a ha
    have h2 := (hcb b hb).1
    omega)
  have ub1234 : ∀ a ∈ (((analyzeConfigPure lastConfig
      newConfig).templateOperations.map templateOpAction ++
      (analyzeConfigPure lastConfig newConfig).transactionOperations.map
        transactionOpAction) ++
      (analyzeConfigPure lastConfig newConfig).segmentOperations.map
        segmentOpAction) ++
      (runCampaignOps (analyzeConfigPure lastConfig
        newConfig).campaignOperations).1, actionRank a ≤ 7 := by
    intro a ha
    rcases List.mem_append.mp ha with h | h
    · have := ub123 a h
      omega
    · exact (hcb a h).2
  have h12345 := pairwise_rankLe_append _ _ h1234 hpp (by
    intro a ha b hb
    have h1 := ub1234 a ha
    rw [hpm b hb]
    omega)
  cases hm : (runCampaignOps (analyzeConfigPure lastConfig
      newConfig).campaignOperations).2 with
  | some e =>
    have hgoal : (executeConfigDelta (analyzeConfigPure lastConfig
        newConfig)).1 =
        (analyzeConfigPure lastConfig newConfig).templateOperations.map
          templateOpAction ++
        (analyzeConfigPure lastConfig newConfig).transactionOperations.map
          transactionOpAction ++
        (analyzeConfigPure lastConfig newConfig).segmentOperations.map
          segmentOpAction ++
        (runCampaignOps (analyzeConfigPure lastConfig
          newConfig).campaignOperations).1 := by
      simp only [executeConfigDelta, hm]
    rw [hgoal]
    exact h1234
  | none =>
    have hgoal : (executeConfigDelta (analyzeConfigPure lastConfig
        newConfig)).1 =
        (analyzeConfigPure lastConfig newConfig).templateOperations.map
          templateOpAction ++
        (analyzeConfigPure lastConfig newConfig).transactionOperations.map
          transactionOpAction ++
        (analyzeConfigPure lastConfig newConfig).segmentOperations.map
          segmentOpAction ++
        (runCampaignOps (analyzeConfigPure lastConfig
          newConfig).campaignOperations).1 ++
        (analyzeConfigPure lastConfig
          newConfig).emailProviderOperations.map
          (fun op => match op with
            | ProviderOp.update d => ConfigAction.setEmailProvider d) := by
      simp only [executeConfigDelta, hm]
    rw [hgoal]
    exact h12345

/-- Counterexample to claim C6 as stated: with template a updated and
template b added, executeConfigDelta applies the update of a before the
add of b, so within the template category adds do not all precede
updates. -/
theorem executeConfigDelta_claim_order_counterexample :
    ¬ ((executeConfigDelta (analyzeConfigPure (some cfgC6old)
      cfgC6new)).1.Pairwise (fun a b => claimOpRank a ≤ claimOpRank b)) := by
  decide

/-- Counterexample to claim C7 as stated: on an input whose parse fails,
extractEventTriggers raises the parse error instead of returning the empty
set. -/
theorem extractEventTriggers_parse_error_counterexample :
    extractEventTriggersFromSQL
      (fun _ => .error "Parse error") "SELECT !!" = .error "Parse error" ∧
    extractEventTriggersFromSQL
      (fun _ => .error "Parse error") "SELECT !!" ≠ .ok [] := by
  refine ⟨rfl, ?_⟩
  intro h
  cases h

/-- Claim C7 (amended): for every input string on which SQL parsing fails,
extractEventTriggers propagates the parse error (aborting the caller)
rather than returning the empty set. -/
theorem extractEventTriggers_parse_error_propagates
    (parse : String → Except String SqlAst) (sql e : String)
    (h : parse (stripBackticks sql) = .error e) :
    extractEventTriggersFromSQL parse sql = .error e := by
  unfold extractEventTriggersFromSQL
  rw [h]

/-- Witness for the parse-error theorem at a concrete failing parse. -/
theorem extractEventTriggers_parse_error_propagates_witness :
    ((fun (_ : String) =>
      (Except.error "Parse error" : Except String SqlAst))
      (stripBackticks "SELECT !!") = .error "Parse error") ∧
    extractEventTriggersFromSQL
      (fun _ => .error "Parse error") "SELECT !!" = .error "Parse error" :=
  ⟨rfl, extractEventTriggers_parse_error_propagates
    (fun _ => .error "Parse error") "SELECT !!" "Parse error" rfl⟩

theorem mem_inListValues (v : String) :
    ∀ vs : SqlAstList, v ∈ inListValues vs ↔ listHasLitValue vs v = true
  | .nil => by simp [inListValues, listHasLitValue]
  | .cons h t => by
    cases hl : litValue? h with
    | none => simp [inListValues, listHasLitValue, hl, mem_inListValues v t]
    | some w =>
      simp [inListValues, listHasLitValue, hl, mem_inListValues v t]
      constructor
      · rintro (rfl | hm)
        · exact Or.inl rfl
        · exact Or.inr hm
      · rintro (rfl | hm)
        · exact Or.inl rfl
        · exact Or.inr hm

theorem mem_eqTriggerPart (l r : SqlAst) (v : String) :
    v ∈ eqTriggerPart l r ↔
      ((isEventsNameCol l = true ∧ litValue? r = some v) ∨
       (isEventsNameCol r = true ∧ litValue? l = some v)) := by
  unfold eqTriggerPart
  cases hr : litValue? r <;> cases hl : litValue? l <;>
    by_cases h1 : isEventsNameCol l <;> by_cases h2 : isEventsNameCol r <;>
    simp [h1, h2] <;> aesop

theorem mem_eqTriggerList (op : String) (l r : SqlAst) (v : String) :
    v ∈ eqTriggerList op l r ↔
      ((op == "=" || op == "==") &&
        ((isEventsNameCol l && (litValue? r == some v)) ||
         (isEventsNameCol r && (litValue? l == some v)))) = true := by
  unfold eqTriggerList
  by_cases h : (op == "=" || op == "==")
  · rw [if_pos h, mem_eqTriggerPart]
    simp [h]
  · rw [if_neg h]
    simp [h] at *

theorem mem_inTriggerList (op : String) (l r : SqlAst) (v : String) :
    v ∈ inTriggerList op l r ↔
      (asciiLower op == "in" && isEventsNameCol l &&
        (match r with
         | .exprList vs => listHasLitValue vs v
         | _ => false)) = true := by
  unfold inTriggerList
  by_cases h : (asciiLower op == "in" && isEventsNameCol l)
  · rw [if_pos h]
    cases r <;> simp [h, mem_inListValues]
  · rw [if_neg h]
    simp [h] at *

mutual
theorem mem_collectNode (v : String) :
    ∀ a : SqlAst, v ∈ collectNode a ↔
      ∃ n, Subterm n a ∧ nodeIsTrigger n v = true
  | .binaryExpr op l r => by
    constructor
    · intro hm
      have hm2 : v ∈ inTriggerList op l r ++ eqTriggerList op l r ++
          collectNode l ++ collectNode r := hm
      rw [List.mem_append, List.mem_append, List.mem_append] at hm2
      rcases hm2 with ((hin | heq) | hl) | hr
      · have hA := (mem_inTriggerList op l r v).mp hin
        exact ⟨.binaryExpr op l r, .refl _, by simp [nodeIsTrigger, hA]⟩
      · have hB := (mem_eqTriggerList op l r v).mp heq
        exact ⟨.binaryExpr op l r, .refl _, by simp [nodeIsTrigger, hB]⟩
      · rcases (mem_collectNode v l).mp hl with ⟨n, hsub, htrig⟩
        exact ⟨n, .binaryLeft hsub, htrig⟩
      · rcases (mem_collectNode v r).mp hr with ⟨n, hsub, htrig⟩
        exact ⟨n, .binaryRight hsub, htrig⟩
    · rintro ⟨n, hsub, htrig⟩
      show v ∈ inTriggerList op l r ++ eqTriggerList op l r ++
        collectNode l ++ collectNode r
      rw [List.mem_append, List.mem_append, List.mem_append]
      cases hsub with
      | refl =>
        simp only [nodeIsTrigger] at htrig
        rw [Bool.or_eq_true] at htrig
        rcases htrig with hA | hB
        · exact Or.inl (Or.inl (Or.inl ((mem_inTriggerList op l r v).mpr hA)))
        · exact Or.inl (Or.inl (Or.inr ((mem_eqTriggerList op l r v).mpr hB)))
      | binaryLeft hsub2 =>
        exact Or.inl (Or.inr ((mem_collectNode v l).mpr ⟨n, hsub2, htrig⟩))
      | binaryRight hsub2 =>
        exact Or.inr ((mem_collectNode v r).mpr ⟨n, hsub2, htrig⟩)
  | .columnRef tb c => by
    constructor
    · intro hm
      simp [collectNode] at hm
    · rintro ⟨n, hsub, htrig⟩
      cases hsub
      simp [nodeIsTrigger] at htrig
  | .strLit t w => by
    constructor
    · intro hm
      simp [collectNode] at hm
    · rintro ⟨n, hsub, htrig⟩
      cases hsub
      simp [nodeIsTrigger] at htrig
  | .exprList vs => by
    constructor
    · intro hm
      have hm2 : v ∈ collectList vs := hm
      rcases (mem_collectList v vs).mp hm2 with ⟨y, hy, n, hsub, htrig⟩
      exact ⟨n, .viaExprList hy hsub, htrig⟩
    · rintro ⟨n, hsub, htrig⟩
      cases hsub with
      | refl => simp [nodeIsTrigger] at htrig
      | viaExprList hy hsub2 =>
        exact (mem_collectList v vs).mpr ⟨_, hy, n, hsub2, htrig⟩
  | .other cs => by
    constructor
    · intro hm
      have hm2 : v ∈ collectList cs := hm
      rcases (mem_collectList v cs).mp hm2 with ⟨y, hy, n, hsub, htrig⟩
      exact ⟨n, .viaOther hy hsub, htrig⟩
    · rintro ⟨n, hsub, htrig⟩
      cases hsub with
      | refl => simp [nodeIsTrigger] at htrig
      | viaOther hy hsub2 =>
        exact (mem_collectList v cs).mpr ⟨_, hy, n, hsub2, htrig⟩
theorem mem_collectList (v : String) :
    ∀ l : SqlAstList, v ∈ collectList l ↔
      ∃ y, MemAst y l ∧ ∃ n, Subterm n y ∧ nodeIsTrigger n v = true
  | .nil => by
    constructor
    · intro hm
      simp [collectList] at hm
    · rintro ⟨y, hy, _⟩
      cases hy
  | .cons h t => by
    constructor
    · intro hm
      have hm2 : v ∈ collectNode h ++ collectList t := hm
      rcases List.mem_append.mp hm2 with h1 | h2
      · rcases (mem_collectNode v h).mp h1 with ⟨n, hsub, htrig⟩
        exact ⟨h, .head h t, n, hsub, htrig⟩
      · rcases (mem_collectList v t).mp h2 with ⟨y, hy, n, hsub, htrig⟩
        exact ⟨y, .tail y h t hy, n, hsub, htrig⟩
    · rintro ⟨y, hy, n, hsub, htrig⟩
      show v ∈ collectNode h ++ collectList t
      rw [List.mem_append]
      cases hy with
      | head => exact Or.inl ((mem_collectNode v h).mpr ⟨n, hsub, htrig⟩)
      | tail _ _ hy2 =>
        exact Or.inr ((mem_collectList v t).mpr ⟨y, hy2, n, hsub, htrig⟩)
end

/-- Claim C8: for a parseable SQL string, extractEventTriggers returns
exactly the set of accepted string-literal values v such that a comparison
events.name = v, v = events.name, or events.name IN (..., v, ...) occurs
somewhere in the AST parsed from the backtick-stripped input, and each
value appears at most once in the result. -/
theorem extractEventTriggers_spec (parse : String → Except String SqlAst)
    (sql : String) (ast : SqlAst)
    (hp : parse (stripBackticks sql) = .ok ast) :
    extractEventTriggersFromSQL parse sql = .ok ((collectNode ast).dedup) ∧
    (∀ v, v ∈ (collectNode ast).dedup ↔
      ∃ n, Subterm n ast ∧ nodeIsTrigger n v = true) ∧
    ((collectNode ast).dedup).Nodup := by
  refine ⟨?_, ?_, List.nodup_dedup _⟩
  · unfold extractEventTriggersFromSQL
    rw [hp]
  · intro v
    rw [List.mem_dedup]
    exact mem_collectNode v ast

/-- Witness for the extraction theorem at the concrete AST of
events.name = (literal) purchase. -/
theorem extractEventTriggers_spec_witness :
    extractEventTriggersFromSQL (fun _ => .ok astC8) "SELECT 1" =
      .ok ["purchase"] ∧
    ("purchase" ∈ (collectNode astC8).dedup ↔
      ∃ n, Subterm n astC8 ∧ nodeIsTrigger n "purchase" = true) := by
  have h := extractEventTriggers_spec (fun _ => .ok astC8) "SELECT 1"
    astC8 rfl
  have h2 : (collectNode astC8).dedup = ["purchase"] := by decide
  refine ⟨?_, h.2.1 "purchase"⟩
  rw [h.1, h2]
